import Mathlib

/-!
# Content-addressed blob storage: upload and download pipelines

A shallow embedding of the Go packages sup (Upload, Download), sup/magicnumber
(Checker) and sup/memory (File, Storer), followed by theorems about them.

Conventions of the embedding:

* a byte slice is a list of bytes; int and int64 lengths are integers, all
  lengths being far below 2^63;
* a Go function that mutates its receiver returns the new receiver next to
  its results;
* an error result is an optional Error, none standing for nil;
* the libraries the code calls but does not contain (the signature table of
  h2non/filetype, strings.ToLower behind the memdb index) are the fields of
  a parameter Lib; crypto/sha256 and encoding/hex are written out.
-/

set_option autoImplicit false

/-- A byte slice. -/
abbrev Bytes := List UInt8

/-! ## crypto/sha256 and encoding/hex -/

namespace SHA256

/-- The round constants. -/
def K : List Nat := [
  0x428a2f98, 0x71374491, 0xb5c0fbcf, 0xe9b5dba5, 0x3956c25b, 0x59f111f1, 0x923f82a4, 0xab1c5ed5,
  0xd807aa98, 0x12835b01, 0x243185be, 0x550c7dc3, 0x72be5d74, 0x80deb1fe, 0x9bdc06a7, 0xc19bf174,
  0xe49b69c1, 0xefbe4786, 0x0fc19dc6, 0x240ca1cc, 0x2de92c6f, 0x4a7484aa, 0x5cb0a9dc, 0x76f988da,
  0x983e5152, 0xa831c66d, 0xb00327c8, 0xbf597fc7, 0xc6e00bf3, 0xd5a79147, 0x06ca6351, 0x14292967,
  0x27b70a85, 0x2e1b2138, 0x4d2c6dfc, 0x53380d13, 0x650a7354, 0x766a0abb, 0x81c2c92e, 0x92722c85,
  0xa2bfe8a1, 0xa81a664b, 0xc24b8b70, 0xc76c51a3, 0xd192e819, 0xd6990624, 0xf40e3585, 0x106aa070,
  0x19a4c116, 0x1e376c08, 0x2748774c, 0x34b0bcb5, 0x391c0cb3, 0x4ed8aa4a, 0x5b9cca4f, 0x682e6ff3,
  0x748f82ee, 0x78a5636f, 0x84c87814, 0x8cc70208, 0x90befffa, 0xa4506ceb, 0xbef9a3f7, 0xc67178f2]

/-- The eight 32-bit words of the chaining value. -/
structure State where
  a : Nat
  b : Nat
  c : Nat
  d : Nat
  e : Nat
  f : Nat
  g : Nat
  h : Nat
  deriving DecidableEq

/-- The initial chaining value. -/
def init : State :=
  ⟨0x6a09e667, 0xbb67ae85, 0x3c6ef372, 0xa54ff53a, 0x510e527f, 0x9b05688c, 0x1f83d9ab, 0x5be0cd19⟩

/-- Truncation to a uint32. -/
def w32 (x : Nat) : Nat := x % 4294967296

/-- Rotation of a uint32 to the right. -/
def rotr (x n : Nat) : Nat := w32 ((x >>> n) ||| (x <<< (32 - n)))

/-- The big-endian value of a few bytes. -/
def bigEndian (bs : List Nat) : Nat := bs.foldl (fun v b => v * 256 + b) 0

/-- The first n big-endian 32-bit words of a block. -/
def words : Nat → List Nat → List Nat
  | 0, _ => []
  | n + 1, bs => bigEndian (bs.take 4) :: words n (bs.drop 4)

/-- Extension of the message schedule by n words; the schedule is kept newest first. -/
def extend : Nat → List Nat → List Nat
  | 0, rev => rev
  | n + 1, rev =>
    let w2 := rev.getD 1 0
    let w7 := rev.getD 6 0
    let w15 := rev.getD 14 0
    let w16 := rev.getD 15 0
    let s0 := rotr w15 7 ^^^ rotr w15 18 ^^^ (w15 >>> 3)
    let s1 := rotr w2 17 ^^^ rotr w2 19 ^^^ (w2 >>> 10)
    extend n (w32 (w16 + s0 + w7 + s1) :: rev)

/-- The 64 words of the message schedule of a 64-byte block. -/
def schedule (block : List Nat) : List Nat :=
  (extend 48 (words 16 block).reverse).reverse

/-- One round of the compression function, on a round constant and a schedule word. -/
def round (v : State) (kw : Nat × Nat) : State :=
  let S1 := rotr v.e 6 ^^^ rotr v.e 11 ^^^ rotr v.e 25
  let ch := (v.e &&& v.f) ^^^ ((4294967295 - v.e) &&& v.g)
  let t1 := w32 (v.h + S1 + ch + kw.1 + kw.2)
  let S0 := rotr v.a 2 ^^^ rotr v.a 13 ^^^ rotr v.a 22
  let maj := (v.a &&& v.b) ^^^ (v.a &&& v.c) ^^^ (v.b &&& v.c)
  let t2 := w32 (S0 + maj)
  ⟨w32 (t1 + t2), v.a, v.b, v.c, w32 (v.d + t1), v.e, v.f, v.g⟩

/-- The compression function on one 64-byte block. -/
def compress (h : State) (block : List Nat) : State :=
  let v := (K.zip (schedule block)).foldl round h
  ⟨w32 (h.a + v.a), w32 (h.b + v.b), w32 (h.c + v.c), w32 (h.d + v.d),
   w32 (h.e + v.e), w32 (h.f + v.f), w32 (h.g + v.g), w32 (h.h + v.h)⟩

/-- The running digest, a hash.Hash: chaining value, bytes of the open block, bytes written. -/
structure Digest where
  h : State
  pending : List Nat
  len : Nat
  deriving DecidableEq

/-- The digest sha256.New returns. -/
def New : Digest := ⟨init, [], 0⟩

/-- Absorption of one byte. -/
def Digest.writeByte (d : Digest) (b : Nat) : Digest :=
  let p := d.pending ++ [b]
  if p.length = 64 then ⟨compress d.h p, [], d.len + 1⟩ else ⟨d.h, p, d.len + 1⟩

/-- The Write method of the digest; it never fails. -/
def Digest.Write (d : Digest) (p : Bytes) : Digest :=
  p.foldl (fun acc b => acc.writeByte b.toNat) d

/-- The k low bytes of n, most significant first. -/
def be (n : Nat) : Nat → List Nat
  | 0 => []
  | k + 1 => (n >>> (8 * k)) % 256 :: be n k

/-- The Sum method on a nil argument: padding, length, and the 32 bytes of the hash. -/
def Digest.Sum (d : Digest) : List Nat :=
  let bits := d.len * 8 % 18446744073709551616
  let padLen := if d.len % 64 < 56 then 56 - d.len % 64 else 64 + 56 - d.len % 64
  let d1 := (128 :: List.replicate (padLen - 1) 0).foldl Digest.writeByte d
  let d2 := (be bits 8).foldl Digest.writeByte d1
  be d2.h.a 4 ++ be d2.h.b 4 ++ be d2.h.c 4 ++ be d2.h.d 4 ++
    be d2.h.e 4 ++ be d2.h.f 4 ++ be d2.h.g 4 ++ be d2.h.h 4

end SHA256

/-- One lowercase hexadecimal digit, as in the table of encoding/hex. -/
def hexDigit (n : Nat) : Char := "0123456789abcdef".data.getD n '0'

/-- Lowercase hexadecimal text of a byte sequence: hex.EncodeToString. -/
def hexEncodeToString (bs : List Nat) : String :=
  ⟨bs.flatMap (fun b => [hexDigit (b / 16), hexDigit (b % 16)])⟩

/-- The lowercase-hex SHA-256 of a byte string. -/
def sha256hex (data : Bytes) : String := hexEncodeToString (SHA256.New.Write data).Sum

/-- The bytes of a text, one byte per character below 256. -/
def strBytes (s : String) : Bytes := s.data.map (fun c => UInt8.ofNat c.toNat)

/-! ## Errors -/

/-- Go error values. The three sentinels of the repository and io.EOF are
compared by identity; fmt.Errorf with the verb %w keeps the wrapped error in
the chain, with the verb %s it keeps only its text. -/
inductive Error where
  | ErrFileNotFound
  | ErrIncorrectSHA
  | ErrUnsupportedFile
  | EOF
  | ErrShortWrite
  | foreign (msg : String)
  | wrapW (msg : String) (err : Error)
  | wrapS (msg : String) (err : Error)
  deriving DecidableEq

/-- The test errors.Is: the target is the error or is reached by unwrapping it. -/
def errorsIs : Error → Error → Bool
  | .wrapW msg inner, target =>
    if Error.wrapW msg inner = target then true else errorsIs inner target
  | e, target => decide (e = target)

/-- What a call does: it returns, or it panics. -/
inductive Outcome (α : Type) where
  | returned (a : α)
  | panicked (msg : String)
  deriving DecidableEq

/-! ## The libraries behind the code -/

/-- The library functions the code calls and the repository does not contain:
filetype.IsMIME, filetype.Match projected to the MIME value of the type it
returns, and strings.ToLower, with which the memdb index of the table
normalises its keys. -/
structure Lib where
  IsMIME : Bytes → String → Bool
  Match : Bytes → Except Error String
  ToLower : String → String

/-! ## magicnumber -/

namespace magicnumber

/-- The minimum number of bytes needed to determine the MIME type. -/
def minBytesNeeded : Nat := 261

/-- The Checker writer. -/
structure Checker where
  buf : Bytes := []
  SupportedMIMEs : List String := []
  MatchedMIME : String := ""
  passed : Bool := false
  deriving DecidableEq

/-- The range loop of Write: the first supported MIME the buffer is of. -/
def firstMatch (lib : Lib) (buf : Bytes) : List String → Option String
  | [] => none
  | mime :: rest => if lib.IsMIME buf mime then some mime else firstMatch lib buf rest

/-- Checker.Write: the checker after the call, the count and the error returned. -/
def Checker.Write (lib : Lib) (m : Checker) (b : Bytes) : Checker × Int × Option Error :=
  if m.MatchedMIME ≠ "" then (m, b.length, none)
  else
    let m1 := { m with buf := m.buf ++ b }
    if m1.buf.length < minBytesNeeded then (m1, b.length, none)
    else
      match firstMatch lib m1.buf m1.SupportedMIMEs with
      | some mime => ({ m1 with MatchedMIME := mime, buf := [] }, b.length, none)
      | none => (m1, b.length, some Error.ErrUnsupportedFile)

/-- Checker.Close. -/
def Checker.Close (m : Checker) : Option Error :=
  if m.MatchedMIME ≠ "" then none else some Error.ErrUnsupportedFile

/-- A run of Write calls on a checker: the checker at the end and the result of each call. -/
def Checker.Writes (lib : Lib) : Checker → List Bytes → Checker × List (Int × Option Error)
  | m, [] => (m, [])
  | m, b :: rest =>
    let r := m.Write lib b
    let t := Checker.Writes lib r.1 rest
    (t.1, r.2 :: t.2)

end magicnumber

/-! ## sup: the File record and the Storer states -/

namespace sup

/-- File represents an uploaded file. -/
structure File where
  SHA256 : String := ""
  Size : Int := 0
  ContentType : String := ""
  deriving DecidableEq

end sup

/-! ## memory -/

namespace memory

/-- The File of the in-memory backend; buf holds the unread bytes of its bytes.Buffer. -/
structure File where
  ID : String
  Size : Int := 0
  ContentType : String := ""
  Contents : Bytes
  buf : Bytes
  deriving DecidableEq

/-- NewFile. -/
def NewFile (id : String) (input : Bytes) : File :=
  { ID := id, Contents := input, buf := input }

/-- File.Write; the Write of a bytes.Buffer returns no error. -/
def File.Write (f : File) (p : Bytes) : File × Int × Option Error :=
  ({ f with buf := f.buf ++ p, Contents := f.Contents ++ p }, p.length, none)

/-- File.Read into a slice of n bytes: the bytes.Buffer hands out up to n unread
bytes, and io.EOF once it is empty and n is positive. -/
def File.Read (f : File) (n : Nat) : File × Bytes × Option Error :=
  if f.buf.length = 0 then
    if n = 0 then ({ f with buf := [] }, [], none) else ({ f with buf := [] }, [], some Error.EOF)
  else ({ f with buf := f.buf.drop n }, f.buf.take n, none)

/-- File.Close: the buffer is rebuilt from Contents. -/
def File.Close (f : File) : File × Option Error :=
  ({ f with buf := f.Contents }, none)

/-- The Storer: its memdb table "file", whose unique index "id" is the
lowercased field ID. The rows are the File objects themselves, so a File
written through the handle Upload returned is the row of the table. -/
structure Storer where
  db : List File
  deriving DecidableEq

/-- The key of an ID in the index (StringFieldIndex with Lowercase set). -/
def indexKey (lib : Lib) (id : String) : String := lib.ToLower id

/-- The lookup txn.First on the index "id": an exact lookup of the lowercased
hash. Its error result arises only for a table or an index the schema lacks. -/
def Storer.First (lib : Lib) (s : Storer) (hash : String) : Option File :=
  s.db.find? (fun f => indexKey lib f.ID == indexKey lib hash)

/-- The call txn.Insert followed by Commit: memdb refuses an object whose primary
key field is empty, and a row of the same key is replaced. -/
def Storer.Insert (lib : Lib) (s : Storer) (f : File) : Except Error Storer :=
  if f.ID = "" then .error (Error.foreign "object missing primary index")
  else .ok ⟨f :: s.db.filter (fun g => indexKey lib g.ID != indexKey lib f.ID)⟩

/-- The call txn.Delete of a row followed by Commit: the row is taken out under
the key of its ID. Storer.Delete passes the row that First found, so the error
of txn.Delete for a row that is not in the table does not arise. -/
def Storer.Remove (lib : Lib) (s : Storer) (f : File) : Storer :=
  ⟨s.db.filter (fun g => indexKey lib g.ID != indexKey lib f.ID)⟩

/-- The table once a File was written or read through a pointer to it: the rows
are pointers to File, so the row under the key of the File is the File as the
calls on the pointer left it. -/
def Storer.Touch (lib : Lib) (s : Storer) (f : File) : Storer :=
  ⟨s.db.map (fun g => if indexKey lib g.ID == indexKey lib f.ID then f else g)⟩

/-- Storer.Upload: no handle and no error when the hash exists, else a new empty File. -/
def Storer.Upload (lib : Lib) (s : Storer) (hash : String) : Storer × Except Error (Option File) :=
  match s.First lib hash with
  | some _ => (s, .ok none)
  | none =>
    let f := NewFile hash []
    match s.Insert lib f with
    | .error err => (s, .error err)
    | .ok s1 => (s1, .ok (some f))

/-- Storer.Download. -/
def Storer.Download (lib : Lib) (s : Storer) (hash : String) : Except Error File :=
  match s.First lib hash with
  | none => .error Error.ErrFileNotFound
  | some res => .ok res

/-- Storer.Delete. -/
def Storer.Delete (lib : Lib) (s : Storer) (hash : String) : Storer × Option Error :=
  match s.First lib hash with
  | none => (s, none)
  | some found => (s.Remove lib found, none)

/-- Storer.Stat. -/
def Storer.Stat (lib : Lib) (s : Storer) (hash : String) : Except Error sup.File :=
  match s.First lib hash with
  | none => .error Error.ErrFileNotFound
  | some f =>
    match lib.Match f.Contents with
    | .error err => .error err
    | .ok mime => .ok { ContentType := mime, Size := f.Contents.length, SHA256 := hash }

/-- NewStorer: an empty table. -/
def NewStorer : Storer := ⟨[]⟩

end memory

/-! ## sup: Upload and Download -/

namespace sup

/-- UploadOptions represents configuration parameters for optional behaviors of Upload. -/
structure UploadOptions where
  AcceptedMIMEs : List String := []
  deriving DecidableEq

/-- An io.Reader as Upload sees it: the byte slices its successive Read calls
hand out, the error of its last Read (none for io.EOF), whether it is also an
io.ReadCloser, and how often Close was called on it. -/
structure Source where
  chunks : List Bytes
  err : Option Error := none
  isCloser : Bool := true
  closes : Nat := 0
  deriving DecidableEq

/-- The deferred rc.Close() of Upload. -/
def Source.Close (src : Source) : Source :=
  if src.isCloser then { src with closes := src.closes + 1 } else src

/-- The writers Upload hands to io.MultiWriter, in their order: the Checker
(absent when no MIME type is configured), the hasher, the handle of the Storer. -/
structure Writers where
  ctw : Option magicnumber.Checker
  hasher : SHA256.Digest
  storer : memory.File
  deriving DecidableEq

/-- The Write of the io.MultiWriter: each writer in turn, stopping at the first
error or short count. -/
def Writers.Write (lib : Lib) (w : Writers) (p : Bytes) : Writers × Int × Option Error :=
  let viaHasher (w1 : Writers) : Writers × Int × Option Error :=
    let w2 := { w1 with hasher := w1.hasher.Write p }
    let r := w2.storer.Write p
    let w3 := { w2 with storer := r.1 }
    match r.2.2 with
    | some err => (w3, r.2.1, some err)
    | none => if r.2.1 ≠ p.length then (w3, r.2.1, some Error.ErrShortWrite) else (w3, p.length, none)
  match w.ctw with
  | none => viaHasher w
  | some c =>
    let r := c.Write lib p
    let w1 := { w with ctw := some r.1 }
    match r.2.2 with
    | some err => (w1, r.2.1, some err)
    | none => if r.2.1 ≠ p.length then (w1, r.2.1, some Error.ErrShortWrite) else viaHasher w1

/-- What io.Copy leaves behind: the writers, the chunks not read, the count
and the error it returns. -/
structure Copied where
  w : Writers
  rest : List Bytes
  written : Int
  err : Option Error
  deriving DecidableEq

/-- The loop of io.Copy over the reads of the source, taken as a plain
io.Reader; rerr is the error of the last Read, none for io.EOF. A read of no
bytes is not passed on. Every writer here reports the length of the slice, so
the guard of io.Copy against a count out of range never fires and is left out. -/
def copyLoop (lib : Lib) (rerr : Option Error) : Writers → List Bytes → Int → Copied
  | w, [], written => ⟨w, [], written, rerr⟩
  | w, p :: rest, written =>
    if p.length > 0 then
      let r := w.Write lib p
      match r.2.2 with
      | some ew => ⟨r.1, rest, written + r.2.1, some ew⟩
      | none =>
        if (p.length : Int) ≠ r.2.1 then ⟨r.1, rest, written + r.2.1, some Error.ErrShortWrite⟩
        else copyLoop lib rerr r.1 rest (written + r.2.1)
    else copyLoop lib rerr w rest written

/-- The call io.Copy(w, source) of Upload. -/
def ioCopy (lib : Lib) (w : Writers) (source : Source) : Copied :=
  copyLoop lib source.err w source.chunks 0

/-- The Checker Upload sets up: none when no MIME type is configured. -/
def newChecker (opts : UploadOptions) : Option magicnumber.Checker :=
  if opts.AcceptedMIMEs.length > 0 then some { SupportedMIMEs := opts.AcceptedMIMEs } else none

/-- What Upload returns. -/
structure Uploaded where
  file : File
  wasCreated : Bool
  err : Option Error
  deriving DecidableEq

/-- A call of Upload: its outcome, the Storer and the source after it. -/
structure UploadRun where
  out : Outcome Uploaded
  store : memory.Storer
  source : Source
  deriving DecidableEq

/-- Upload, on the in-memory Storer. The deferred Close of the source runs on
every way out. The last return reads MatchedMIME through the pointer ctw, which
is nil when no MIME type is configured: there the call panics. -/
def Upload (lib : Lib) (s : memory.Storer) (source : Source) (sha : String)
    (opts : UploadOptions) : UploadRun :=
  let ctw := newChecker opts
  let hasher := SHA256.New
  match s.Upload lib sha with
  | (s1, .error err) =>
    ⟨.returned ⟨{}, false, some (.wrapS "error starting upload" err)⟩, s1, source.Close⟩
  | (s1, .ok none) =>
    match s1.Stat lib sha with
    | .error err =>
      ⟨.returned ⟨{}, false, some (.wrapW "error stating existing file" err)⟩, s1, source.Close⟩
    | .ok file => ⟨.returned ⟨file, false, none⟩, s1, source.Close⟩
  | (s1, .ok (some storer)) =>
    let c := ioCopy lib ⟨ctw, hasher, storer⟩ source
    let s2 := s1.Touch lib c.w.storer
    let src := { source with chunks := c.rest }
    match c.err with
    | some err =>
      ⟨.returned ⟨{}, false, some (.wrapW "error uploading file" err)⟩, s2, src.Close⟩
    | none =>
      let finalSHA := hexEncodeToString c.w.hasher.Sum
      if finalSHA ≠ sha then
        match s2.Delete lib sha with
        | (s3, some err) =>
          ⟨.returned ⟨{}, false, some (.wrapW "error deleting incorrectly named file" err)⟩,
            s3, src.Close⟩
        | (s3, none) => ⟨.returned ⟨{}, false, some Error.ErrIncorrectSHA⟩, s3, src.Close⟩
      else
        match c.w.ctw with
        | none => ⟨.panicked "invalid memory address or nil pointer dereference", s2, src.Close⟩
        | some m =>
          ⟨.returned ⟨{ SHA256 := sha, Size := c.written, ContentType := m.MatchedMIME }, true, none⟩,
            s2, src.Close⟩

/-- An io.Writer as Download sees it, taken as a plain io.Writer: the bytes
written to it, how many Write calls it still accepts before one fails and
takes nothing (none: it never fails), whether it is also an io.WriteCloser,
and how often Close was called on it. -/
structure Dest where
  data : Bytes := []
  okWrites : Option Nat := none
  isCloser : Bool := false
  closes : Nat := 0
  deriving DecidableEq

/-- A Write on the destination. -/
def Dest.Write (d : Dest) (p : Bytes) : Dest × Int × Option Error :=
  match d.okWrites with
  | some 0 => (d, 0, some (Error.foreign "write failed"))
  | some (k + 1) => ({ d with data := d.data ++ p, okWrites := some k }, p.length, none)
  | none => ({ d with data := d.data ++ p }, p.length, none)

/-- The deferred wc.Close() of Download. -/
def Dest.Close (d : Dest) : Dest :=
  if d.isCloser then { d with closes := d.closes + 1 } else d

/-- The size of the buffer io.Copy reads into. -/
def copyBufferSize : Nat := 32768

/-- The loop of io.Copy(dst, rc) in Download, at most fuel reads. -/
def readLoop : Nat → memory.File → Dest → memory.File × Dest × Option Error
  | 0, f, d => (f, d, none)
  | fuel + 1, f, d =>
    let r := f.Read copyBufferSize
    if r.2.1.length > 0 then
      let t := d.Write r.2.1
      match t.2.2 with
      | some ew => (r.1, t.1, some ew)
      | none =>
        if (r.2.1.length : Int) ≠ t.2.1 then (r.1, t.1, some Error.ErrShortWrite)
        else
          match r.2.2 with
          | some er => (r.1, t.1, if er = Error.EOF then none else some er)
          | none => readLoop fuel r.1 t.1
    else
      match r.2.2 with
      | some er => (r.1, d, if er = Error.EOF then none else some er)
      | none => readLoop fuel r.1 d

/-- A call of Download: the error it returns, the Storer and the destination after it. -/
structure DownloadRun where
  err : Option Error
  store : memory.Storer
  dst : Dest
  deriving DecidableEq

/-- Download, on the in-memory Storer. Every read hands out at least one byte
until the buffer is empty, so the loop ends within one read per unread byte
and one more. -/
def Download (lib : Lib) (s : memory.Storer) (dst : Dest) (sha : String) : DownloadRun :=
  match s.Download lib sha with
  | .error err => ⟨some (.wrapW "error starting download" err), s, dst.Close⟩
  | .ok rc =>
    let r := readLoop (rc.buf.length + 1) rc dst
    let closed := r.1.Close
    let s1 := s.Touch lib closed.1
    match r.2.2 with
    | some err => ⟨some (.wrapW "error copying information" err), s1, r.2.1.Close⟩
    | none => ⟨none, s1, r.2.1.Close⟩

end sup

/-! ## Notions the statements use -/

namespace memory

/-- The File after the bytes x were written to it. -/
def File.grown (f : File) (x : Bytes) : File :=
  { f with buf := f.buf ++ x, Contents := f.Contents ++ x }

end memory

namespace sup

/-- The slices io.Copy passes to the writers: the reads that are not empty. -/
def Source.writes (src : Source) : List Bytes := src.chunks.filter (fun p => p.length > 0)

/-- No Write of a fresh Checker with these types, over these slices, returns an error. -/
def snifferAccepts (lib : Lib) (types : List String) (writes : List Bytes) : Prop :=
  ∀ r ∈ (magicnumber.Checker.Writes lib { SupportedMIMEs := types } writes).2, r.2 = none

instance (lib : Lib) (types : List String) (writes : List Bytes) :
    Decidable (snifferAccepts lib types writes) :=
  inferInstanceAs (Decidable (∀ r ∈
    (magicnumber.Checker.Writes lib { SupportedMIMEs := types } writes).2, r.2 = none))

/-- The copy of a call of Upload completes without error: the Storer handed
out a handle and io.Copy returned a nil error. -/
def copyCompletes (lib : Lib) (s : memory.Storer) (source : Source) (sha : String)
    (opts : UploadOptions) : Bool :=
  match (s.Upload lib sha).2 with
  | .ok (some storer) => (ioCopy lib ⟨newChecker opts, SHA256.New, storer⟩ source).err == none
  | _ => false

/-- The copy of a call of Upload fails: the Storer handed out a handle and
io.Copy returned an error. -/
def copyFails (lib : Lib) (s : memory.Storer) (source : Source) (sha : String)
    (opts : UploadOptions) : Bool :=
  match (s.Upload lib sha).2 with
  | .ok (some storer) => (ioCopy lib ⟨newChecker opts, SHA256.New, storer⟩ source).err != none
  | _ => false

/-- A call on the Storer: Upload through the pipeline, or Delete. -/
inductive Call where
  | upload (source : Source) (sha : String) (opts : UploadOptions)
  | delete (sha : String)

/-- The Storer after a call. -/
def step (lib : Lib) (s : memory.Storer) : Call → memory.Storer
  | .upload source sha opts => (Upload lib s source sha opts).store
  | .delete sha => (s.Delete lib sha).1

/-- The Storer after a sequence of calls. -/
def run (lib : Lib) (s : memory.Storer) (calls : List Call) : memory.Storer :=
  calls.foldl (step lib) s

/-- No Upload of the sequence has a copy that fails. -/
def noCopyFails (lib : Lib) : memory.Storer → List Call → Bool
  | _, [] => true
  | s, .upload source sha opts :: rest =>
    !copyFails lib s source sha opts && noCopyFails lib (step lib s (.upload source sha opts)) rest
  | s, .delete sha :: rest => noCopyFails lib (step lib s (.delete sha)) rest

end sup

/-! ## A concrete library, for evaluation -/

/-- Lowercasing of the ASCII letters. -/
def asciiLower (s : String) : String := ⟨s.data.map Char.toLower⟩

/-- The signatures of GIF, PNG and JPEG as the matchers of h2non/filetype test them. -/
def imageSignature (buf : Bytes) (mime : String) : Bool :=
  if mime = "image/gif" then buf.take 3 == [0x47, 0x49, 0x46]
  else if mime = "image/png" then buf.take 4 == [0x89, 0x50, 0x4E, 0x47]
  else if mime = "image/jpeg" then buf.take 3 == [0xFF, 0xD8, 0xFF]
  else false

/-- A small stand-in for the libraries: the three image signatures, a Match
that fails on an empty buffer and answers the empty MIME value for an unknown
type, and ASCII lowercasing. -/
def imageLib : Lib where
  IsMIME := imageSignature
  Match := fun buf =>
    if buf.length = 0 then .error (Error.foreign "Empty buffer")
    else .ok ((["image/gif", "image/png", "image/jpeg"].find? (imageSignature buf)).getD "")
  ToLower := asciiLower


/-! ## Further notions and libraries -/

namespace magicnumber

/-- The bytes the Checker holds when its buffer first reaches the minimum: the
writes are appended to the buffer until it holds at least 261 bytes. -/
def sniffed : Bytes → List Bytes → Bytes
  | acc, [] => acc
  | acc, b :: rest =>
    if (acc ++ b).length < minBytesNeeded then sniffed (acc ++ b) rest else acc ++ b

/-- The answer of the classifier depends only on the first 261 bytes of the buffer. -/
def headOnly (lib : Lib) : Prop :=
  ∀ buf mime, lib.IsMIME buf mime = lib.IsMIME (buf.take minBytesNeeded) mime

end magicnumber

namespace sup

/-- The Checker cuts the copy of a call of Upload short: the Storer handed out
a handle and some Write of the Checker over the chunks returns an error. -/
def snifferRejects (lib : Lib) (s : memory.Storer) (source : Source) (sha : String)
    (opts : UploadOptions) : Bool :=
  match (s.Upload lib sha).2 with
  | .ok (some _) => !decide (snifferAccepts lib opts.AcceptedMIMEs source.writes)
  | _ => false

/-- Consecutive calls of Download of one digest, one destination each: the runs in order. -/
def Downloads (lib : Lib) : memory.Storer → String → List Dest → List DownloadRun
  | _, _, [] => []
  | s, sha, d :: rest =>
    let r := Download lib s d sha
    r :: Downloads lib r.store sha rest

end sup

/-- The signature of a tar archive as the matcher of h2non/filetype tests it:
more than 261 bytes, with the text ustar at offset 257. -/
def tarSignature (buf : Bytes) (mime : String) : Bool :=
  if mime = "application/x-tar" then
    decide (buf.length > 261) && (buf.drop 257).take 5 == [0x75, 0x73, 0x74, 0x61, 0x72]
  else false

/-- A small stand-in for the libraries with the tar signature alone. -/
def archiveLib : Lib where
  IsMIME := tarSignature
  Match := fun buf =>
    if buf.length = 0 then .error (Error.foreign "Empty buffer")
    else .ok (if tarSignature buf "application/x-tar" then "application/x-tar" else "")
  ToLower := asciiLower

/-! ## Lemmas: hashing -/

theorem digest_write_append (d : SHA256.Digest) (p q : Bytes) :
    d.Write (p ++ q) = (d.Write p).Write q := by
  simp [SHA256.Digest.Write, List.foldl_append]

theorem digest_write_nil (d : SHA256.Digest) : d.Write [] = d := rfl

theorem hexEncodeToString_cons_ne (b : Nat) (bs : List Nat) :
    hexEncodeToString (b :: bs) ≠ "" := by
  intro h
  have h2 := congrArg String.data h
  simp [hexEncodeToString] at h2

theorem digest_sum_cons (d : SHA256.Digest) : ∃ x xs, d.Sum = x :: xs := by
  simp only [SHA256.Digest.Sum, SHA256.be, List.cons_append]
  exact ⟨_, _, rfl⟩

theorem sha256hex_ne_empty (data : Bytes) : sha256hex data ≠ "" := by
  obtain ⟨x, xs, h⟩ := digest_sum_cons (SHA256.New.Write data)
  unfold sha256hex
  rw [h]
  exact hexEncodeToString_cons_ne x xs

/-! ## Lemmas: the table -/

namespace memory

theorem first_none_iff (lib : Lib) (s : Storer) (hash : String) :
    s.First lib hash = none ↔ ∀ f ∈ s.db, indexKey lib f.ID ≠ indexKey lib hash := by
  simp [Storer.First, List.find?_eq_none]

theorem first_some_mem (lib : Lib) (s : Storer) (hash : String) (f : File)
    (h : s.First lib hash = some f) : f ∈ s.db ∧ indexKey lib f.ID = indexKey lib hash := by
  unfold Storer.First at h
  have h1 := List.mem_of_find?_eq_some h
  have h2 := List.find?_some h
  exact ⟨h1, by simpa using h2⟩

theorem find_filter_other {α : Type} (p q : α → Bool) (l : List α)
    (h : ∀ a ∈ l, p a = true → q a = true) : (l.filter q).find? p = l.find? p := by
  induction l with
  | nil => rfl
  | cons a l ih =>
    have ih2 := ih (fun b hb => h b (List.mem_cons_of_mem a hb))
    by_cases hq : q a = true
    · simp [List.filter_cons, hq, List.find?_cons, ih2]
    · have hp : p a = false := by
        cases hpa : p a with
        | false => rfl
        | true => exact absurd (h a (List.mem_cons_self a l) hpa) hq
      simp [List.filter_cons, hq, List.find?_cons, hp, ih2]

theorem remove_first_same (lib : Lib) (s : Storer) (f : File) (hash : String)
    (h : indexKey lib f.ID = indexKey lib hash) : (s.Remove lib f).First lib hash = none := by
  rw [first_none_iff]
  intro g hg
  simp [Storer.Remove, List.mem_filter] at hg
  rw [← h]
  exact hg.2

theorem remove_first_other (lib : Lib) (s : Storer) (f : File) (hash : String)
    (h : indexKey lib hash ≠ indexKey lib f.ID) :
    (s.Remove lib f).First lib hash = s.First lib hash := by
  unfold Storer.Remove Storer.First
  apply find_filter_other
  intro a _ ha
  simp at ha
  simp [ha]
  exact h

theorem remove_absent (lib : Lib) (s : Storer) (f : File)
    (h : ∀ g ∈ s.db, indexKey lib g.ID ≠ indexKey lib f.ID) : s.Remove lib f = s := by
  cases s with
  | mk db =>
    simp only [Storer.Remove, Storer.mk.injEq]
    rw [List.filter_eq_self]
    intro g hg
    simpa using h g hg

theorem delete_err (lib : Lib) (s : Storer) (hash : String) : (s.Delete lib hash).2 = none := by
  unfold Storer.Delete
  cases s.First lib hash <;> rfl

theorem delete_first_same (lib : Lib) (s : Storer) (hash : String) :
    (s.Delete lib hash).1.First lib hash = none := by
  unfold Storer.Delete
  cases h : s.First lib hash with
  | none => simpa using h
  | some found => exact remove_first_same lib s found hash (first_some_mem lib s hash found h).2

theorem delete_first_other (lib : Lib) (s : Storer) (hash other : String)
    (h : indexKey lib other ≠ indexKey lib hash) :
    (s.Delete lib hash).1.First lib other = s.First lib other := by
  unfold Storer.Delete
  cases hf : s.First lib hash with
  | none => rfl
  | some found =>
    apply remove_first_other
    rw [(first_some_mem lib s hash found hf).2]
    exact h

theorem delete_absent (lib : Lib) (s : Storer) (hash : String) (h : s.First lib hash = none) :
    (s.Delete lib hash).1 = s := by
  unfold Storer.Delete
  rw [h]

theorem delete_mem (lib : Lib) (s : Storer) (hash : String) (g : File)
    (h : g ∈ (s.Delete lib hash).1.db) : g ∈ s.db := by
  unfold Storer.Delete at h
  cases hf : s.First lib hash with
  | none => rw [hf] at h; exact h
  | some found =>
    rw [hf] at h
    simp [Storer.Remove, List.mem_filter] at h
    exact h.1

/-- The table after a new row was inserted and then written through its handle. -/
theorem touch_insert (lib : Lib) (s s1 : Storer) (f g : File) (hid : g.ID = f.ID)
    (h : s.Insert lib f = .ok s1) :
    s1.Touch lib g = ⟨g :: s.db.filter (fun r => indexKey lib r.ID != indexKey lib f.ID)⟩ := by
  unfold Storer.Insert at h
  split at h
  · cases h
  · injection h with h
    subst h
    simp only [Storer.Touch, List.map_cons, hid, beq_self_eq_true, if_true, Storer.mk.injEq,
      List.cons.injEq, true_and]
    rw [List.map_congr_left, List.map_id]
    intro r hr
    simp [List.mem_filter] at hr
    simp [hr.2]

end memory

/-! ## Lemmas: the Checker -/

namespace magicnumber

theorem write_count (lib : Lib) (m : Checker) (b : Bytes) : (m.Write lib b).2.1 = b.length := by
  unfold Checker.Write
  split
  · rfl
  · dsimp only
    split
    · rfl
    · split <;> rfl

theorem write_below (lib : Lib) (m : Checker) (b : Bytes) (h0 : m.MatchedMIME = "")
    (h : (m.buf ++ b).length < minBytesNeeded) :
    m.Write lib b = ({ m with buf := m.buf ++ b }, (b.length : Int), none) := by
  unfold Checker.Write
  simp only [h0, ne_eq, not_true_eq_false, if_false, h, if_true]

theorem write_matched (lib : Lib) (m : Checker) (b : Bytes) (h0 : m.MatchedMIME ≠ "") :
    m.Write lib b = (m, (b.length : Int), none) := by
  unfold Checker.Write
  simp only [h0, ne_eq, not_false_eq_true, if_true]

theorem writes_below (lib : Lib) : ∀ (writes : List Bytes) (m : Checker),
    m.MatchedMIME = "" → (m.buf ++ writes.flatten).length < minBytesNeeded →
    Checker.Writes lib m writes =
      ({ m with buf := m.buf ++ writes.flatten },
        writes.map (fun b => ((b.length : Int), (none : Option Error))))
  | [], m, _, _ => by simp [Checker.Writes]
  | b :: rest, m, h0, h => by
    have hb : (m.buf ++ b).length < minBytesNeeded := by
      simp only [List.flatten_cons, List.length_append] at h ⊢
      omega
    have ih := writes_below lib rest { m with buf := m.buf ++ b } h0
      (by simpa [List.append_assoc] using h)
    simp only [Checker.Writes, write_below lib m b h0 hb, ih, List.flatten_cons,
      List.append_assoc, List.map_cons]

theorem writes_matched (lib : Lib) (m : Checker) (h0 : m.MatchedMIME ≠ "") :
    ∀ (writes : List Bytes), Checker.Writes lib m writes =
      (m, writes.map (fun b => ((b.length : Int), (none : Option Error))))
  | [] => rfl
  | b :: rest => by
    simp only [Checker.Writes, write_matched lib m b h0, writes_matched lib m h0 rest,
      List.map_cons]

end magicnumber

/-! ## Lemmas: the copy of Upload -/

namespace sup

open memory magicnumber

theorem writers_write_none (lib : Lib) (h : SHA256.Digest) (f : memory.File) (p : Bytes) :
    Writers.Write lib ⟨none, h, f⟩ p = (⟨none, h.Write p, f.grown p⟩, (p.length : Int), none) := by
  simp [Writers.Write, memory.File.Write, memory.File.grown]

theorem writers_write_some (lib : Lib) (m : Checker) (h : SHA256.Digest) (f : memory.File)
    (p : Bytes) :
    Writers.Write lib ⟨some m, h, f⟩ p =
      match (m.Write lib p).2.2 with
      | some err => (⟨some (m.Write lib p).1, h, f⟩, (p.length : Int), some err)
      | none => (⟨some (m.Write lib p).1, h.Write p, f.grown p⟩, (p.length : Int), none) := by
  have hc := write_count lib m p
  simp only [Writers.Write, hc]
  cases (m.Write lib p).2.2 <;> simp [memory.File.Write, memory.File.grown]

theorem grown_nil (f : memory.File) : f.grown [] = f := by
  simp [memory.File.grown]

theorem grown_grown (f : memory.File) (x y : Bytes) : (f.grown x).grown y = f.grown (x ++ y) := by
  simp [memory.File.grown, List.append_assoc]

/-- The copy without a Checker writes every chunk and returns the error of the last Read. -/
theorem copyLoop_none (lib : Lib) (rerr : Option Error) :
    ∀ (chunks : List Bytes) (h : SHA256.Digest) (f : memory.File) (n : Int),
    copyLoop lib rerr ⟨none, h, f⟩ chunks n =
      ⟨⟨none, h.Write chunks.flatten, f.grown chunks.flatten⟩, [],
        n + chunks.flatten.length, rerr⟩
  | [], h, f, n => by simp [copyLoop, digest_write_nil, grown_nil]
  | p :: rest, h, f, n => by
    unfold copyLoop
    by_cases hp : p.length > 0
    · simp only [hp, if_true, writers_write_none, ne_eq, not_true_eq_false, if_false]
      rw [copyLoop_none lib rerr rest]
      simp [digest_write_append, grown_grown, add_assoc]
    · have hnil : p = [] := by
        cases p with
        | nil => rfl
        | cons a t => simp at hp
      subst hnil
      simp only [List.length_nil, gt_iff_lt, lt_self_iff_false, if_false]
      rw [copyLoop_none lib rerr rest]
      simp

/-- The copy with a Checker that accepts every write: every chunk is written. -/
theorem copyLoop_accept (lib : Lib) (rerr : Option Error) :
    ∀ (chunks : List Bytes) (m : Checker) (h : SHA256.Digest) (f : memory.File) (n : Int),
    (∀ r ∈ (Checker.Writes lib m (chunks.filter (fun p => p.length > 0))).2, r.2 = none) →
    copyLoop lib rerr ⟨some m, h, f⟩ chunks n =
      ⟨⟨some (Checker.Writes lib m (chunks.filter (fun p => p.length > 0))).1,
          h.Write chunks.flatten, f.grown chunks.flatten⟩, [],
        n + chunks.flatten.length, rerr⟩
  | [], m, h, f, n, _ => by simp [copyLoop, Checker.Writes, digest_write_nil, grown_nil]
  | p :: rest, m, h, f, n, hacc => by
    unfold copyLoop
    by_cases hp : p.length > 0
    · have hfil : (p :: rest).filter (fun p => p.length > 0)
          = p :: rest.filter (fun p => p.length > 0) := by simp [List.filter_cons, hp]
      rw [hfil] at hacc ⊢
      simp only [Checker.Writes, List.mem_cons, forall_eq_or_imp] at hacc
      have hw : (m.Write lib p).2.2 = none := hacc.1
      simp only [hp, if_true, writers_write_some, hw, ne_eq, not_true_eq_false, if_false]
      rw [copyLoop_accept lib rerr rest _ _ _ _ hacc.2]
      simp [Checker.Writes, digest_write_append, grown_grown, add_assoc]
    · have hnil : p = [] := by
        cases p with
        | nil => rfl
        | cons a t => simp at hp
      subst hnil
      have hfil : ([] :: rest).filter (fun p : Bytes => p.length > 0)
          = rest.filter (fun p => p.length > 0) := by simp [List.filter_cons]
      rw [hfil] at hacc ⊢
      simp only [List.length_nil, gt_iff_lt, lt_self_iff_false, if_false]
      rw [copyLoop_accept lib rerr rest _ _ _ _ hacc]
      simp

/-- What every copy leaves: the hasher and the handle received the same bytes,
and these are all the bytes of the source when the copy returned no error. -/
theorem copyLoop_inv (lib : Lib) (rerr : Option Error) :
    ∀ (chunks : List Bytes) (w : Writers) (n : Int),
    ∃ x : Bytes,
      (copyLoop lib rerr w chunks n).w.storer = w.storer.grown x ∧
      (copyLoop lib rerr w chunks n).w.hasher = w.hasher.Write x ∧
      ((copyLoop lib rerr w chunks n).err = none →
        x = chunks.flatten ∧ (copyLoop lib rerr w chunks n).written = n + chunks.flatten.length ∧
        (copyLoop lib rerr w chunks n).rest = [] ∧ rerr = none)
  | [], w, n => ⟨[], by simp [copyLoop, grown_nil, digest_write_nil]⟩
  | p :: rest, w, n => by
    obtain ⟨ctw, h, f⟩ := w
    by_cases hp : p.length > 0
    · cases ctw with
      | none =>
        refine ⟨(p :: rest).flatten, ?_⟩
        rw [copyLoop_none]
        simp
      | some m =>
        cases hw : (m.Write lib p).2.2 with
        | some err =>
          refine ⟨[], ?_⟩
          unfold copyLoop
          simp [hp, writers_write_some, hw, grown_nil, digest_write_nil]
        | none =>
          obtain ⟨x, hx1, hx2, hx3⟩ := copyLoop_inv lib rerr rest
            ⟨some (m.Write lib p).1, h.Write p, f.grown p⟩ (n + p.length)
          refine ⟨p ++ x, ?_⟩
          unfold copyLoop
          simp only [hp, if_true, writers_write_some, hw, ne_eq, not_true_eq_false, if_false]
          refine ⟨?_, ?_, ?_⟩
          · rw [hx1, grown_grown]
          · rw [hx2, digest_write_append]
          · intro he
            obtain ⟨a1, a2, a3, a4⟩ := hx3 he
            refine ⟨by simp [a1], ?_, a3, a4⟩
            rw [a2]
            simp [add_assoc]
    · have hnil : p = [] := by
        cases p with
        | nil => rfl
        | cons a t => simp at hp
      subst hnil
      obtain ⟨x, hx⟩ := copyLoop_inv lib rerr rest ⟨ctw, h, f⟩ n
      refine ⟨x, ?_⟩
      unfold copyLoop
      simpa using hx

end sup

namespace sup

open memory magicnumber

theorem ioCopy_none (lib : Lib) (h : SHA256.Digest) (f : memory.File) (src : Source) :
    ioCopy lib ⟨none, h, f⟩ src =
      ⟨⟨none, h.Write src.chunks.flatten, f.grown src.chunks.flatten⟩, [],
        src.chunks.flatten.length, src.err⟩ := by
  unfold ioCopy
  rw [copyLoop_none, zero_add]

theorem ioCopy_accept (lib : Lib) (m : Checker) (h : SHA256.Digest) (f : memory.File)
    (src : Source)
    (hacc : ∀ r ∈ (Checker.Writes lib m src.writes).2, r.2 = none) :
    ioCopy lib ⟨some m, h, f⟩ src =
      ⟨⟨some (Checker.Writes lib m src.writes).1, h.Write src.chunks.flatten,
          f.grown src.chunks.flatten⟩, [], src.chunks.flatten.length, src.err⟩ := by
  unfold ioCopy
  rw [copyLoop_accept lib src.err src.chunks m h f 0 hacc, zero_add]
  rfl

theorem ioCopy_inv (lib : Lib) (w : Writers) (src : Source) :
    ∃ x : Bytes,
      (ioCopy lib w src).w.storer = w.storer.grown x ∧
      (ioCopy lib w src).w.hasher = w.hasher.Write x ∧
      ((ioCopy lib w src).err = none →
        x = src.chunks.flatten ∧ (ioCopy lib w src).written = src.chunks.flatten.length ∧
        (ioCopy lib w src).rest = [] ∧ src.err = none) := by
  obtain ⟨x, h1, h2, h3⟩ := copyLoop_inv lib src.err src.chunks w 0
  refine ⟨x, h1, h2, ?_⟩
  intro he
  obtain ⟨a1, a2, a3, a4⟩ := h3 he
  exact ⟨a1, by simpa using a2, a3, a4⟩

end sup

/-! ## Lemmas: the calls of the Storer and the copy of Download -/

namespace memory

theorem insert_absent (lib : Lib) (s : Storer) (f : File) (hne : f.ID ≠ "")
    (habs : s.First lib f.ID = none) : s.Insert lib f = .ok ⟨f :: s.db⟩ := by
  unfold Storer.Insert
  rw [if_neg hne]
  have hfil : s.db.filter (fun g => indexKey lib g.ID != indexKey lib f.ID) = s.db := by
    rw [List.filter_eq_self]
    intro g hg
    simpa using (first_none_iff lib s f.ID).1 habs g hg
  rw [hfil]

theorem upload_absent (lib : Lib) (s : Storer) (hash : String) (hne : hash ≠ "")
    (habs : s.First lib hash = none) :
    s.Upload lib hash = (⟨NewFile hash [] :: s.db⟩, .ok (some (NewFile hash []))) := by
  unfold Storer.Upload
  rw [habs]
  have h := insert_absent lib s (NewFile hash []) hne habs
  simp only [h]

theorem upload_empty (lib : Lib) (s : Storer) (habs : s.First lib "" = none) :
    s.Upload lib "" = (s, .error (Error.foreign "object missing primary index")) := by
  unfold Storer.Upload
  rw [habs]
  simp [Storer.Insert, NewFile]

theorem upload_present (lib : Lib) (s : Storer) (hash : String) (f : File)
    (h : s.First lib hash = some f) : s.Upload lib hash = (s, .ok none) := by
  unfold Storer.Upload
  rw [h]

theorem touch_head (lib : Lib) (s : Storer) (f g : File) (hid : g.ID = f.ID)
    (habs : s.First lib f.ID = none) :
    (⟨f :: s.db⟩ : Storer).Touch lib g = ⟨g :: s.db⟩ := by
  simp only [Storer.Touch, List.map_cons, hid, beq_self_eq_true, if_true, Storer.mk.injEq,
    List.cons.injEq, true_and]
  conv => rhs; rw [← List.map_id s.db]
  apply List.map_congr_left
  intro r hr
  have := (first_none_iff lib s f.ID).1 habs r hr
  simp [this]

theorem first_head (lib : Lib) (db : List File) (f : File) (hash : String)
    (h : indexKey lib f.ID = indexKey lib hash) :
    (⟨f :: db⟩ : Storer).First lib hash = some f := by
  simp [Storer.First, List.find?_cons, h]

theorem first_tail (lib : Lib) (db : List File) (f : File) (hash : String)
    (h : indexKey lib f.ID ≠ indexKey lib hash) :
    (⟨f :: db⟩ : Storer).First lib hash = (⟨db⟩ : Storer).First lib hash := by
  simp [Storer.First, List.find?_cons, h]

theorem grown_id (f : File) (x : Bytes) : (f.grown x).ID = f.ID := rfl

theorem touch_same (lib : Lib) (db : List File) (f g : File) (hid : g.ID = f.ID)
    (habs : (⟨db⟩ : Storer).First lib f.ID = none) :
    (⟨f :: db⟩ : Storer).Touch lib g = ⟨g :: db⟩ :=
  touch_head lib ⟨db⟩ f g hid habs

end memory

namespace sup

open memory magicnumber

theorem dest_write_ok (d : Dest) (p : Bytes) (h : d.okWrites = none) :
    d.Write p = ({ d with data := d.data ++ p }, (p.length : Int), none) := by
  unfold Dest.Write
  rw [h]

/-- With a destination that accepts every write and enough fuel, the loop
moves every unread byte of the File to the destination and ends without error. -/
theorem readLoop_all : ∀ (fuel : Nat) (f : memory.File) (d : Dest),
    d.okWrites = none → f.buf.length < fuel →
    readLoop fuel f d = ({ f with buf := [] }, { d with data := d.data ++ f.buf }, none)
  | 0, _, _, _, h => by omega
  | fuel + 1, f, d, hd, h => by
    unfold readLoop
    by_cases hb : f.buf.length = 0
    · have hnil : f.buf = [] := List.eq_nil_of_length_eq_zero hb
      simp [memory.File.Read, hb, copyBufferSize, hnil]
    · have htake : (f.buf.take copyBufferSize).length > 0 := by
        simp only [List.length_take, copyBufferSize]
        omega
      have hdrop : (f.buf.drop copyBufferSize).length < fuel := by
        simp only [List.length_drop, copyBufferSize]
        omega
      have ih := readLoop_all fuel { f with buf := f.buf.drop copyBufferSize }
        { d with data := d.data ++ f.buf.take copyBufferSize } hd hdrop
      simp only [memory.File.Read, hb, if_false, htake, if_true, dest_write_ok _ _ hd,
        ne_eq, not_true_eq_false, ih]
      simp [List.append_assoc]

end sup

/-! ## Theorems -/

open sup memory magicnumber

theorem newChecker_some (types : List String) (h : types ≠ []) :
    newChecker ⟨types⟩ = some { SupportedMIMEs := types } := by
  unfold newChecker
  cases types with
  | nil => exact absurd rfl h
  | cons a t => simp

/-- The run of Upload on an absent digest when the Checker accepts every write
and the source ends with io.EOF, for a claimed digest that is the hash of the bytes. -/
theorem upload_accept_run (lib : Lib) (s : Storer) (src : Source) (types : List String)
    (hread : src.err = none)
    (habs : s.First lib (sha256hex src.chunks.flatten) = none)
    (htypes : types ≠ []) (hsniff : snifferAccepts lib types src.writes) :
    Upload lib s src (sha256hex src.chunks.flatten) ⟨types⟩ =
      ⟨.returned ⟨sup.File.mk (sha256hex src.chunks.flatten) src.chunks.flatten.length
          (Checker.Writes lib { SupportedMIMEs := types } src.writes).1.MatchedMIME, true, none⟩,
        ⟨(NewFile (sha256hex src.chunks.flatten) []).grown src.chunks.flatten :: s.db⟩,
        Source.Close { src with chunks := [] }⟩ := by
  have hne := sha256hex_ne_empty src.chunks.flatten
  have hcopy := ioCopy_accept lib { SupportedMIMEs := types } SHA256.New
    (NewFile (sha256hex src.chunks.flatten) []) src hsniff
  have htouch := touch_head lib s (NewFile (sha256hex src.chunks.flatten) [])
    ((NewFile (sha256hex src.chunks.flatten) []).grown src.chunks.flatten) rfl habs
  have hsum : hexEncodeToString (SHA256.New.Write src.chunks.flatten).Sum
      = sha256hex src.chunks.flatten := rfl
  simp only [Upload, upload_absent lib s _ hne habs, newChecker_some types htypes, hcopy,
    hread, htouch, hsum, ne_eq, not_true_eq_false, if_false]

/-- C1. Round trip of Upload and Download: for every source that hands out the
bytes B in any chunking and ends with io.EOF, every state of the in-memory
Storer in which the lowercase-hex SHA-256 of B is absent, and every non-empty
list of accepted MIME types under which no Write of the Checker rejects during
the copy, Upload under that digest returns a File with that SHA256 and Size the
length of B, true and a nil error, and a Download of the digest that follows
returns a nil error and appends exactly B to a destination that accepts its writes. -/
theorem upload_download_roundtrip (lib : Lib) (s : Storer) (src : Source) (B : Bytes)
    (types : List String) (dst : Dest)
    (hB : src.chunks.flatten = B) (hread : src.err = none)
    (habs : s.First lib (sha256hex B) = none)
    (htypes : types ≠ []) (hsniff : snifferAccepts lib types src.writes)
    (hdst : dst.okWrites = none) :
    (∃ u, (Upload lib s src (sha256hex B) ⟨types⟩).out = .returned u ∧
      u.file.SHA256 = sha256hex B ∧ u.file.Size = B.length ∧ u.wasCreated = true ∧
      u.err = none) ∧
    (Download lib (Upload lib s src (sha256hex B) ⟨types⟩).store dst (sha256hex B)).err = none ∧
    (Download lib (Upload lib s src (sha256hex B) ⟨types⟩).store dst (sha256hex B)).dst.data
      = dst.data ++ B := by
  subst hB
  rw [upload_accept_run lib s src types hread habs htypes hsniff]
  refine ⟨⟨_, rfl, rfl, rfl, rfl, rfl⟩, ?_⟩
  have hfirst := first_head lib s.db
    ((NewFile (sha256hex src.chunks.flatten) []).grown src.chunks.flatten)
    (sha256hex src.chunks.flatten) rfl
  have hloop := readLoop_all (src.chunks.flatten.length + 1)
    ((NewFile (sha256hex src.chunks.flatten) []).grown src.chunks.flatten) dst hdst
    (by simp [NewFile, File.grown])
  have hbuf : ((NewFile (sha256hex src.chunks.flatten) []).grown src.chunks.flatten).buf
      = src.chunks.flatten := by simp [NewFile, File.grown]
  simp only [Download, Storer.Download, hfirst, hbuf, hloop]
  cases hc : dst.isCloser <;> simp [Dest.Close, hc]

/-- C1, at the upload of the test table: the twelve bytes of hello, world with
image/gif accepted, on an empty Storer. -/
theorem upload_download_roundtrip_witness :
    (∃ u, (Upload imageLib NewStorer ⟨[strBytes "hello, world"], none, true, 0⟩
        (sha256hex (strBytes "hello, world")) ⟨["image/gif"]⟩).out = .returned u ∧
      u.file.SHA256 = sha256hex (strBytes "hello, world") ∧
      u.file.Size = (strBytes "hello, world").length ∧ u.wasCreated = true ∧ u.err = none) ∧
    (Download imageLib (Upload imageLib NewStorer ⟨[strBytes "hello, world"], none, true, 0⟩
        (sha256hex (strBytes "hello, world")) ⟨["image/gif"]⟩).store {}
        (sha256hex (strBytes "hello, world"))).err = none ∧
    (Download imageLib (Upload imageLib NewStorer ⟨[strBytes "hello, world"], none, true, 0⟩
        (sha256hex (strBytes "hello, world")) ⟨["image/gif"]⟩).store {}
        (sha256hex (strBytes "hello, world"))).dst.data
      = ({} : Dest).data ++ strBytes "hello, world" :=
  upload_download_roundtrip imageLib NewStorer ⟨[strBytes "hello, world"], none, true, 0⟩
    (strBytes "hello, world") ["image/gif"] {} (by decide!) rfl rfl (by decide!) (by decide!) rfl

/-- The Storer hands out a handle exactly for an absent hash with a non-empty text. -/
theorem upload_handle (lib : Lib) (s : Storer) (sha : String) (f : memory.File)
    (h : (s.Upload lib sha).2 = .ok (some f)) :
    sha ≠ "" ∧ s.First lib sha = none ∧ f = NewFile sha [] := by
  cases hf : s.First lib sha with
  | some g => rw [upload_present lib s sha g hf] at h; cases h
  | none =>
    by_cases hne : sha = ""
    · subst hne
      rw [upload_empty lib s hf] at h
      cases h
    · rw [upload_absent lib s sha hne hf] at h
      injection h with h
      injection h with h
      exact ⟨hne, rfl, h.symm⟩

/-- The run of Upload once the Storer handed out a handle and the copy returned no error. -/
theorem upload_copied_run (lib : Lib) (s : Storer) (src : Source) (sha : String)
    (opts : UploadOptions) (hc : copyCompletes lib s src sha opts = true) :
    sha ≠ "" ∧ s.First lib sha = none ∧ src.err = none ∧
    (ioCopy lib ⟨newChecker opts, SHA256.New, NewFile sha []⟩ src).err = none ∧
    Upload lib s src sha opts =
      if sha256hex src.chunks.flatten ≠ sha then
        ⟨.returned ⟨{}, false, some Error.ErrIncorrectSHA⟩, s,
          Source.Close { src with chunks := [] }⟩
      else
        match (ioCopy lib ⟨newChecker opts, SHA256.New, NewFile sha []⟩ src).w.ctw with
        | none =>
          ⟨.panicked "invalid memory address or nil pointer dereference",
            ⟨(NewFile sha []).grown src.chunks.flatten :: s.db⟩,
            Source.Close { src with chunks := [] }⟩
        | some m =>
          ⟨.returned ⟨sup.File.mk sha src.chunks.flatten.length m.MatchedMIME, true, none⟩,
            ⟨(NewFile sha []).grown src.chunks.flatten :: s.db⟩,
            Source.Close { src with chunks := [] }⟩ := by
  unfold copyCompletes at hc
  cases hu : (s.Upload lib sha).2 with
  | error e => rw [hu] at hc; cases hc
  | ok o =>
    cases o with
    | none => rw [hu] at hc; cases hc
    | some f =>
      rw [hu] at hc
      obtain ⟨hne, habs, hf⟩ := upload_handle lib s sha f hu
      subst hf
      have herr : (ioCopy lib ⟨newChecker opts, SHA256.New, NewFile sha []⟩ src).err = none := by
        simpa using hc
      obtain ⟨x, h1, h2, h3⟩ := ioCopy_inv lib ⟨newChecker opts, SHA256.New, NewFile sha []⟩ src
      obtain ⟨hx, hw, hrest, hread⟩ := h3 herr
      subst hx
      refine ⟨hne, habs, hread, herr, ?_⟩
      have htouch := touch_head lib s (NewFile sha [])
        ((NewFile sha []).grown src.chunks.flatten) rfl habs
      have hsum : hexEncodeToString (SHA256.New.Write src.chunks.flatten).Sum
          = sha256hex src.chunks.flatten := rfl
      have hdel : Storer.Delete lib ⟨(NewFile sha []).grown src.chunks.flatten :: s.db⟩ sha
          = (s, none) := by
        have hfirst := first_head lib s.db ((NewFile sha []).grown src.chunks.flatten) sha rfl
        simp only [Storer.Delete, hfirst, Storer.Remove]
        have hfil : (((NewFile sha []).grown src.chunks.flatten) :: s.db).filter
            (fun g => indexKey lib g.ID != indexKey lib ((NewFile sha []).grown src.chunks.flatten).ID)
            = s.db := by
          rw [List.filter_cons]
          simp only [bne_self_eq_false, Bool.false_eq_true, if_false]
          rw [List.filter_eq_self]
          intro g hg
          simpa using (first_none_iff lib s sha).1 habs g hg
        rw [hfil]
      simp only [Upload, upload_absent lib s sha hne habs, herr, h1, h2, hw, hrest, htouch, hsum,
        hdel]

/-- C2. Rollback on a digest mismatch: for every source handing out the bytes B,
every claimed digest D that differs from the lowercase-hex SHA-256 of B and is
absent from the in-memory Storer, and every options value under which the copy
of the call completes without error, Upload returns the zero File, false and
ErrIncorrectSHA, and after the call no blob exists under D while the lookup of
every digest of another key gives what it gave before. -/
theorem upload_mismatch_rollback (lib : Lib) (s : Storer) (src : Source) (B : Bytes)
    (D : String) (opts : UploadOptions)
    (hB : src.chunks.flatten = B) (hD : D ≠ sha256hex B) (habs : s.First lib D = none)
    (hcopy : copyCompletes lib s src D opts = true) :
    (Upload lib s src D opts).out = .returned ⟨{}, false, some Error.ErrIncorrectSHA⟩ ∧
    (Upload lib s src D opts).store.First lib D = none ∧
    ∀ other, indexKey lib other ≠ indexKey lib D →
      (Upload lib s src D opts).store.First lib other = s.First lib other := by
  subst hB
  obtain ⟨_, _, _, _, hrun⟩ := upload_copied_run lib s src D opts hcopy
  rw [hrun, if_pos (Ne.symm hD)]
  exact ⟨rfl, habs, fun _ _ => rfl⟩

/-- C2, at hello, world uploaded under the claimed digest abc with image/gif
accepted, on an empty Storer. -/
theorem upload_mismatch_rollback_witness :
    (Upload imageLib NewStorer ⟨[strBytes "hello, world"], none, true, 0⟩ "abc"
        ⟨["image/gif"]⟩).out = .returned ⟨{}, false, some Error.ErrIncorrectSHA⟩ ∧
    (Upload imageLib NewStorer ⟨[strBytes "hello, world"], none, true, 0⟩ "abc"
        ⟨["image/gif"]⟩).store.First imageLib "abc" = none ∧
    ∀ other, indexKey imageLib other ≠ indexKey imageLib "abc" →
      (Upload imageLib NewStorer ⟨[strBytes "hello, world"], none, true, 0⟩ "abc"
        ⟨["image/gif"]⟩).store.First imageLib other = NewStorer.First imageLib other :=
  upload_mismatch_rollback imageLib NewStorer ⟨[strBytes "hello, world"], none, true, 0⟩
    (strBytes "hello, world") "abc" ⟨["image/gif"]⟩ (by decide!) (by decide!) rfl (by decide!)

/-- C4. The dedup short-circuit leaves everything untouched: for every digest D
present in the Storer and every source and options, Upload under D returns with
wasCreated false, reads nothing from the source (the chunks the source has yet
to hand out are the ones it had), and leaves the Storer as it was, whatever the
offered bytes hash to. -/
theorem upload_dedup_untouched (lib : Lib) (s : Storer) (src : Source) (D : String)
    (opts : UploadOptions) (f : memory.File) (hpres : s.First lib D = some f) :
    (∃ u, (Upload lib s src D opts).out = .returned u ∧ u.wasCreated = false) ∧
    (Upload lib s src D opts).source.chunks = src.chunks ∧
    (Upload lib s src D opts).store = s := by
  have hsrc : (Source.Close src).chunks = src.chunks := by
    unfold Source.Close
    split <;> rfl
  simp only [Upload, upload_present lib s D f hpres]
  cases hstat : s.Stat lib D with
  | error e => exact ⟨⟨_, rfl, rfl⟩, hsrc, rfl⟩
  | ok file => exact ⟨⟨_, rfl, rfl⟩, hsrc, rfl⟩

/-- C4, at a Storer holding hello under the digest of hello, world, offered other
bytes under that digest. -/
theorem upload_dedup_untouched_witness :
    (∃ u, (Upload imageLib ⟨[NewFile (sha256hex (strBytes "hello, world")) (strBytes "hello")]⟩
        ⟨[strBytes "other bytes"], none, true, 0⟩ (sha256hex (strBytes "hello, world"))
        ⟨[]⟩).out = .returned u ∧ u.wasCreated = false) ∧
    (Upload imageLib ⟨[NewFile (sha256hex (strBytes "hello, world")) (strBytes "hello")]⟩
        ⟨[strBytes "other bytes"], none, true, 0⟩ (sha256hex (strBytes "hello, world"))
        ⟨[]⟩).source.chunks = [strBytes "other bytes"] ∧
    (Upload imageLib ⟨[NewFile (sha256hex (strBytes "hello, world")) (strBytes "hello")]⟩
        ⟨[strBytes "other bytes"], none, true, 0⟩ (sha256hex (strBytes "hello, world"))
        ⟨[]⟩).store = ⟨[NewFile (sha256hex (strBytes "hello, world")) (strBytes "hello")]⟩ :=
  upload_dedup_untouched imageLib
    ⟨[NewFile (sha256hex (strBytes "hello, world")) (strBytes "hello")]⟩
    ⟨[strBytes "other bytes"], none, true, 0⟩ (sha256hex (strBytes "hello, world")) ⟨[]⟩
    (NewFile (sha256hex (strBytes "hello, world")) (strBytes "hello")) (by decide!)

/-- The three ways a call of Upload leaves the Storer: as it was; with the new
blob, whose hash is the claimed digest; or after a copy that failed. -/
theorem upload_store_cases (lib : Lib) (s : Storer) (src : Source) (sha : String)
    (opts : UploadOptions) :
    (Upload lib s src sha opts).store = s ∨
    (copyCompletes lib s src sha opts = true ∧ sha256hex src.chunks.flatten = sha ∧
      (Upload lib s src sha opts).store = ⟨(NewFile sha []).grown src.chunks.flatten :: s.db⟩) ∨
    copyFails lib s src sha opts = true := by
  cases hcc : copyCompletes lib s src sha opts with
  | true =>
    obtain ⟨_, _, _, _, hrun⟩ := upload_copied_run lib s src sha opts hcc
    by_cases hsha : sha256hex src.chunks.flatten = sha
    · right; left
      refine ⟨rfl, hsha, ?_⟩
      rw [hrun, if_neg (not_not.mpr hsha)]
      cases (ioCopy lib ⟨newChecker opts, SHA256.New, NewFile sha []⟩ src).w.ctw <;> rfl
    · left
      rw [hrun, if_pos hsha]
  | false =>
    cases hf : s.First lib sha with
    | some g =>
      left
      simp only [Upload, upload_present lib s sha g hf]
      cases s.Stat lib sha <;> rfl
    | none =>
      by_cases hne : sha = ""
      · left
        subst hne
        simp only [Upload, upload_empty lib s hf]
      · right; right
        unfold copyCompletes at hcc
        unfold copyFails
        rw [upload_absent lib s sha hne hf] at hcc ⊢
        simp only at hcc ⊢
        cases he : (ioCopy lib ⟨newChecker opts, SHA256.New, NewFile sha []⟩ src).err with
        | none => rw [he] at hcc; simp at hcc
        | some e => simp

/-- Every blob of the table is stored under the lowercase-hex SHA-256 of its bytes. -/
theorem integrity_step (lib : Lib) (s : Storer) (c : Call)
    (hinv : ∀ f ∈ s.db, sha256hex f.Contents = f.ID)
    (hok : noCopyFails lib s [c] = true) :
    ∀ f ∈ (step lib s c).db, sha256hex f.Contents = f.ID := by
  cases c with
  | delete sha =>
    intro f hf
    exact hinv f (delete_mem lib s sha f hf)
  | upload src sha opts =>
    have hnf : copyFails lib s src sha opts = false := by
      simp only [noCopyFails, Bool.and_true, Bool.not_eq_true'] at hok
      exact hok
    rcases upload_store_cases lib s src sha opts with h | ⟨_, hsha, h⟩ | h
    · intro f hf
      simp only [step, h] at hf
      exact hinv f hf
    · intro f hf
      simp only [step, h, List.mem_cons] at hf
      rcases hf with hf | hf
      · subst hf
        simpa [File.grown, NewFile] using hsha
      · exact hinv f hf
    · rw [hnf] at h
      cases h

theorem integrity_run (lib : Lib) : ∀ (calls : List Call) (s : Storer) (k : Nat),
    (∀ f ∈ s.db, sha256hex f.Contents = f.ID) → noCopyFails lib s calls = true →
    ∀ f ∈ (run lib s (calls.take k)).db, sha256hex f.Contents = f.ID
  | [], s, k, hinv, _ => by simpa [run] using hinv
  | c :: rest, s, 0, hinv, _ => by simpa [run] using hinv
  | c :: rest, s, k + 1, hinv, hok => by
    have hsplit : noCopyFails lib s [c] = true ∧ noCopyFails lib (step lib s c) rest = true := by
      cases c with
      | delete sha => exact ⟨rfl, by simpa [noCopyFails] using hok⟩
      | upload src sha opts =>
        simp only [noCopyFails, Bool.and_eq_true] at hok ⊢
        exact ⟨⟨hok.1, trivial⟩, hok.2⟩
    have hstep := integrity_step lib s c hinv hsplit.1
    have ih := integrity_run lib rest (step lib s c) k hstep hsplit.2
    simpa [run, List.take_succ_cons] using ih

/-- C3, as stated, fails: on an empty Storer, with image/gif the one accepted
type, the upload of 300 letters a under their true digest is rejected by the
Checker at its first write; the Storer is left holding an empty blob under
that digest, and the hash of the empty blob is not the digest. -/
theorem integrity_counterexample :
    ∃ f, (run imageLib NewStorer
        [Call.upload ⟨[List.replicate 300 0x61], none, true, 0⟩
          (sha256hex (List.replicate 300 0x61)) ⟨["image/gif"]⟩]).First imageLib
          (sha256hex (List.replicate 300 0x61)) = some f ∧
      f.Contents = [] ∧ sha256hex f.Contents ≠ sha256hex (List.replicate 300 0x61) :=
  ⟨NewFile (sha256hex (List.replicate 300 0x61)) [], by decide!, rfl, by decide!⟩

/-- C3, amended. For every finite sequence of Upload and Delete calls on an
initially empty in-memory Storer in which no Upload has a copy that fails,
after each call every digest present maps to a blob that is stored under the
lowercase-hex SHA-256 of its bytes, an ID that is the digest up to the
lowercasing of the index. -/
theorem integrity_invariant (lib : Lib) (calls : List Call) (k : Nat)
    (hok : noCopyFails lib NewStorer calls = true) :
    ∀ D f, (run lib NewStorer (calls.take k)).First lib D = some f →
      indexKey lib f.ID = indexKey lib D ∧ sha256hex f.Contents = f.ID := by
  intro D f hf
  obtain ⟨hmem, hkey⟩ := first_some_mem lib _ D f hf
  refine ⟨hkey, ?_⟩
  exact integrity_run lib calls NewStorer k (by simp [NewStorer]) hok f hmem

/-- C3 amended, at a sequence of three calls on hello, world, looked at after
two of them: the first upload creates the blob, the second, under a wrong
digest, is rolled back; the blob found under the digest is stored under the
hash of its bytes. -/
theorem integrity_invariant_witness :
    indexKey imageLib ((NewFile (sha256hex (strBytes "hello, world")) []).grown
        (strBytes "hello, world")).ID = indexKey imageLib (sha256hex (strBytes "hello, world")) ∧
    sha256hex ((NewFile (sha256hex (strBytes "hello, world")) []).grown
        (strBytes "hello, world")).Contents
      = ((NewFile (sha256hex (strBytes "hello, world")) []).grown (strBytes "hello, world")).ID :=
  integrity_invariant imageLib
    [Call.upload ⟨[strBytes "hello, world"], none, true, 0⟩
        (sha256hex (strBytes "hello, world")) ⟨["image/gif"]⟩,
      Call.upload ⟨[strBytes "hello, world"], none, true, 0⟩ "abc" ⟨[]⟩,
      Call.delete (sha256hex (strBytes "hello, world"))] 2 (by decide!)
    (sha256hex (strBytes "hello, world"))
    ((NewFile (sha256hex (strBytes "hello, world")) []).grown (strBytes "hello, world"))
    (by decide!)

/-- When Upload reports that it created the blob, the copy of the call had
completed without error and the claimed digest is the hash of the bytes. -/
theorem upload_created_inv (lib : Lib) (s : Storer) (src : Source) (sha : String)
    (opts : UploadOptions) (u : Uploaded)
    (hout : (Upload lib s src sha opts).out = .returned u) (hcr : u.wasCreated = true) :
    copyCompletes lib s src sha opts = true ∧ sha256hex src.chunks.flatten = sha := by
  cases hf : s.First lib sha with
  | some g =>
    simp only [Upload, upload_present lib s sha g hf] at hout
    cases hstat : s.Stat lib sha with
    | error e => rw [hstat] at hout; cases hout; cases hcr
    | ok file => rw [hstat] at hout; cases hout; cases hcr
  | none =>
    by_cases hne : sha = ""
    · subst hne
      simp only [Upload, upload_empty lib s hf] at hout
      cases hout
      cases hcr
    · cases he : (ioCopy lib ⟨newChecker opts, SHA256.New, NewFile sha []⟩ src).err with
      | some e =>
        simp only [Upload, upload_absent lib s sha hne hf, he] at hout
        cases hout
        cases hcr
      | none =>
        have hcc : copyCompletes lib s src sha opts = true := by
          unfold copyCompletes
          rw [upload_absent lib s sha hne hf]
          simp [he]
        refine ⟨hcc, ?_⟩
        obtain ⟨_, _, _, _, hrun⟩ := upload_copied_run lib s src sha opts hcc
        by_contra hsha
        rw [hrun, if_pos hsha] at hout
        cases hout
        cases hcr

/-- C5, as stated, fails: on an empty Storer with image/gif the one accepted
type, the upload of the six bytes GIF89a under their digest creates the blob
and returns an empty ContentType, the Checker having seen too few bytes to
classify; the next Upload under the digest returns the ContentType image/gif,
which Stat derives from the whole blob. -/
theorem dedup_metadata_counterexample :
    (Upload imageLib NewStorer ⟨[strBytes "GIF89a"], none, true, 0⟩
        (sha256hex (strBytes "GIF89a")) ⟨["image/gif"]⟩).out
      = .returned ⟨sup.File.mk (sha256hex (strBytes "GIF89a")) 6 "", true, none⟩ ∧
    (Upload imageLib
        (Upload imageLib NewStorer ⟨[strBytes "GIF89a"], none, true, 0⟩
          (sha256hex (strBytes "GIF89a")) ⟨["image/gif"]⟩).store
        ⟨[strBytes "other bytes"], none, true, 0⟩
        (sha256hex (strBytes "GIF89a")) ⟨["image/gif"]⟩).out
      = .returned ⟨sup.File.mk (sha256hex (strBytes "GIF89a")) 6 "image/gif", false, none⟩ := by
  decide!

/-- C5, amended. For every digest D created by an Upload that returned the File
F with true and a nil error, an Upload under D that follows, with arbitrary
bytes and options, returns with wasCreated false, and when the classification
of the stored bytes by the Storer gives the MIME value t it returns the SHA256
and the Size of F with the ContentType t, false and a nil error. -/
theorem dedup_metadata (lib : Lib) (s : Storer) (src : Source) (D : String)
    (opts : UploadOptions) (F : sup.File) (src2 : Source) (opts2 : UploadOptions)
    (hcreate : (Upload lib s src D opts).out = .returned ⟨F, true, none⟩) :
    ∃ u, (Upload lib (Upload lib s src D opts).store src2 D opts2).out = .returned u ∧
      u.wasCreated = false ∧
      ∀ t, lib.Match src.chunks.flatten = .ok t →
        u = ⟨sup.File.mk F.SHA256 F.Size t, false, none⟩ := by
  obtain ⟨hcc, hsha⟩ := upload_created_inv lib s src D opts _ hcreate rfl
  obtain ⟨_, _, _, _, hrun⟩ := upload_copied_run lib s src D opts hcc
  rw [hrun, if_neg (not_not.mpr hsha)] at hcreate ⊢
  have hfirst := first_head lib s.db ((NewFile D []).grown src.chunks.flatten) D rfl
  have hF : F.SHA256 = D ∧ F.Size = src.chunks.flatten.length ∧
      (match (ioCopy lib ⟨newChecker opts, SHA256.New, NewFile D []⟩ src).w.ctw with
        | none => (⟨.panicked "invalid memory address or nil pointer dereference",
            ⟨(NewFile D []).grown src.chunks.flatten :: s.db⟩,
            Source.Close { src with chunks := [] }⟩ : UploadRun)
        | some m =>
          ⟨.returned ⟨sup.File.mk D src.chunks.flatten.length m.MatchedMIME, true, none⟩,
            ⟨(NewFile D []).grown src.chunks.flatten :: s.db⟩,
            Source.Close { src with chunks := [] }⟩).store
        = ⟨(NewFile D []).grown src.chunks.flatten :: s.db⟩ := by
    cases hm : (ioCopy lib ⟨newChecker opts, SHA256.New, NewFile D []⟩ src).w.ctw with
    | none => rw [hm] at hcreate; cases hcreate
    | some m =>
      rw [hm] at hcreate
      simp only at hcreate
      injection hcreate with h1
      injection h1 with h1
      subst h1
      exact ⟨rfl, rfl, rfl⟩
  obtain ⟨h1, h2, h3⟩ := hF
  rw [h3]
  simp only [Upload, upload_present lib _ D _ hfirst, Storer.Stat, hfirst]
  cases hmatch : lib.Match ((NewFile D []).grown src.chunks.flatten).Contents with
  | error e =>
    refine ⟨_, rfl, rfl, ?_⟩
    intro t ht
    simp [File.grown, NewFile] at hmatch
    rw [hmatch] at ht
    cases ht
  | ok mime =>
    refine ⟨_, rfl, rfl, ?_⟩
    intro t ht
    simp [File.grown, NewFile] at hmatch
    rw [hmatch] at ht
    injection ht with ht
    subst ht
    simp [h1, h2, File.grown, NewFile]

/-- C5 amended, at the upload of GIF89a with image/gif accepted, followed by an
Upload of other bytes under the same digest. -/
theorem dedup_metadata_witness :
    ∃ u, (Upload imageLib
        (Upload imageLib NewStorer ⟨[strBytes "GIF89a"], none, true, 0⟩
          (sha256hex (strBytes "GIF89a")) ⟨["image/gif"]⟩).store
        ⟨[strBytes "other bytes"], none, true, 0⟩
        (sha256hex (strBytes "GIF89a")) ⟨[]⟩).out = .returned u ∧
      u.wasCreated = false ∧
      ∀ t, imageLib.Match [strBytes "GIF89a"].flatten = .ok t →
        u = ⟨sup.File.mk (sup.File.mk (sha256hex (strBytes "GIF89a")) 6 "").SHA256
          (sup.File.mk (sha256hex (strBytes "GIF89a")) 6 "").Size t, false, none⟩ :=
  dedup_metadata imageLib NewStorer ⟨[strBytes "GIF89a"], none, true, 0⟩
    (sha256hex (strBytes "GIF89a")) ⟨["image/gif"]⟩
    (sup.File.mk (sha256hex (strBytes "GIF89a")) 6 "")
    ⟨[strBytes "other bytes"], none, true, 0⟩ ⟨[]⟩ (by decide!)

/-- C6. With no accepted MIME type configured, the upload of hello, world under
its digest 09ca7e4e... on an empty Storer does not return: once the copy and
the comparison of the digests have succeeded, the read of ctw.MatchedMIME on
the nil Checker panics; the twelve bytes stay in the Storer under the digest
and the source was closed once. -/
theorem upload_unchecked_panics :
    sha256hex (strBytes "hello, world")
      = "09ca7e4eaa6e8ae9c7d261167129184883644d07dfba7cbfbc4c8a2e08360d5b" ∧
    Upload imageLib NewStorer ⟨[strBytes "hello, world"], none, true, 0⟩
        "09ca7e4eaa6e8ae9c7d261167129184883644d07dfba7cbfbc4c8a2e08360d5b" ⟨[]⟩
      = ⟨.panicked "invalid memory address or nil pointer dereference",
          ⟨[(NewFile "09ca7e4eaa6e8ae9c7d261167129184883644d07dfba7cbfbc4c8a2e08360d5b" []).grown
              (strBytes "hello, world")]⟩,
          ⟨[], none, true, 1⟩⟩ := by
  decide!

/-- With no accepted MIME type configured, every upload of bytes under their
own absent digest, from a source that ends with io.EOF, panics. -/
theorem unchecked_upload_always_panics (lib : Lib) (s : Storer) (src : Source)
    (hread : src.err = none) (habs : s.First lib (sha256hex src.chunks.flatten) = none) :
    (Upload lib s src (sha256hex src.chunks.flatten) ⟨[]⟩).out
      = .panicked "invalid memory address or nil pointer dereference" := by
  have hne := sha256hex_ne_empty src.chunks.flatten
  have hchk : newChecker ⟨[]⟩ = none := rfl
  have hcc : copyCompletes lib s src (sha256hex src.chunks.flatten) ⟨[]⟩ = true := by
    unfold copyCompletes
    rw [upload_absent lib s _ hne habs]
    simp [hchk, ioCopy_none, hread]
  obtain ⟨_, _, _, _, hrun⟩ := upload_copied_run lib s src _ ⟨[]⟩ hcc
  rw [hrun]
  simp [hchk, ioCopy_none]

theorem writes_flatten (chunks : List Bytes) :
    (chunks.filter (fun p => p.length > 0)).flatten = chunks.flatten := by
  induction chunks with
  | nil => rfl
  | cons p rest ih =>
    cases p with
    | nil => simpa [List.filter_cons] using ih
    | cons a t => simp [List.filter_cons, ih]

/-- Below the threshold the Checker of Upload accepts every write and matches nothing. -/
theorem sniffer_below (lib : Lib) (types : List String) (src : Source)
    (hlen : src.chunks.flatten.length < minBytesNeeded) :
    snifferAccepts lib types src.writes ∧
    (Checker.Writes lib { SupportedMIMEs := types } src.writes).1.MatchedMIME = "" := by
  have hw := writes_below lib src.writes { SupportedMIMEs := types } rfl
    (by simpa [Source.writes, writes_flatten] using hlen)
  unfold snifferAccepts
  rw [hw]
  refine ⟨?_, rfl⟩
  intro r hr
  simp only [List.mem_map] at hr
  obtain ⟨b, _, hb⟩ := hr
  rw [← hb]

/-- C7, as stated, fails: the upload of the test table, hello, world (12 bytes)
under its digest with image/gif the one accepted type, on an empty Storer,
returns a File with an empty ContentType, true and a nil error. -/
theorem short_upload_counterexample :
    (Upload imageLib NewStorer ⟨[strBytes "hello, world"], none, true, 0⟩
        "09ca7e4eaa6e8ae9c7d261167129184883644d07dfba7cbfbc4c8a2e08360d5b" ⟨["image/gif"]⟩).out
      = .returned ⟨sup.File.mk "09ca7e4eaa6e8ae9c7d261167129184883644d07dfba7cbfbc4c8a2e08360d5b"
          12 "", true, none⟩ := by
  decide!

/-- C7, amended. For every byte string B shorter than the 261 bytes of the
threshold, handed out by a source that ends with io.EOF, every non-empty list
of accepted types and every claimed digest D absent from the Storer, Upload
returns, the error it returns is never ErrUnsupportedFile, and when D is the
lowercase-hex SHA-256 of B it returns the File of D with Size the length of B
and an empty ContentType, true and a nil error: Upload never calls Close on
the Checker. -/
theorem short_upload_accepted (lib : Lib) (s : Storer) (src : Source) (B : Bytes) (D : String)
    (types : List String)
    (hB : src.chunks.flatten = B) (hread : src.err = none)
    (hlen : B.length < minBytesNeeded) (htypes : types ≠ [])
    (habs : s.First lib D = none) :
    (∃ u, (Upload lib s src D ⟨types⟩).out = .returned u ∧
      ∀ e, u.err = some e → errorsIs e Error.ErrUnsupportedFile = false) ∧
    (D = sha256hex B →
      (Upload lib s src D ⟨types⟩).out
        = .returned ⟨sup.File.mk D B.length "", true, none⟩) := by
  subst hB
  obtain ⟨hacc, hmime⟩ := sniffer_below lib types src hlen
  have hrun := upload_accept_run lib s src types hread
  constructor
  · by_cases hne : D = ""
    · subst hne
      have hstart : (Upload lib s src "" ⟨types⟩).out = .returned ⟨{}, false,
          some (.wrapS "error starting upload" (Error.foreign "object missing primary index"))⟩ := by
        simp only [Upload, upload_empty lib s habs]
      refine ⟨_, hstart, ?_⟩
      intro e he
      injection he with he
      subst he
      rfl
    · have hcc : copyCompletes lib s src D ⟨types⟩ = true := by
        unfold copyCompletes
        rw [upload_absent lib s D hne habs]
        simp [newChecker_some types htypes, ioCopy_accept lib _ _ _ src hacc, hread]
      obtain ⟨_, _, _, _, hrun2⟩ := upload_copied_run lib s src D ⟨types⟩ hcc
      rw [hrun2]
      by_cases hsha : sha256hex src.chunks.flatten = D
      · rw [if_neg (not_not.mpr hsha), newChecker_some types htypes,
          ioCopy_accept lib _ _ _ src hacc]
        refine ⟨_, rfl, ?_⟩
        intro e he
        cases he
      · rw [if_pos hsha]
        refine ⟨_, rfl, ?_⟩
        intro e he
        injection he with he
        subst he
        rfl
  · intro hD
    subst hD
    rw [hrun habs htypes hacc, hmime]

/-- C7 amended, at hello, world under its digest with image/gif accepted. -/
theorem short_upload_accepted_witness :
    (∃ u, (Upload imageLib NewStorer ⟨[strBytes "hello, world"], none, true, 0⟩
        (sha256hex (strBytes "hello, world")) ⟨["image/gif"]⟩).out = .returned u ∧
      ∀ e, u.err = some e → errorsIs e Error.ErrUnsupportedFile = false) ∧
    (sha256hex (strBytes "hello, world") = sha256hex (strBytes "hello, world") →
      (Upload imageLib NewStorer ⟨[strBytes "hello, world"], none, true, 0⟩
        (sha256hex (strBytes "hello, world")) ⟨["image/gif"]⟩).out
        = .returned ⟨sup.File.mk (sha256hex (strBytes "hello, world"))
            (strBytes "hello, world").length "", true, none⟩) :=
  short_upload_accepted imageLib NewStorer ⟨[strBytes "hello, world"], none, true, 0⟩
    (strBytes "hello, world") (sha256hex (strBytes "hello, world")) ["image/gif"]
    (by decide!) rfl (by decide!) (by decide!) rfl

/-- C8. Delete is idempotent and makes the digest unreachable: for every state
of the in-memory Storer and every digest D, Delete of D returns a nil error;
a Download of D that follows returns an error that is ErrFileNotFound and
writes no byte to the destination; and when D was absent before the call,
Delete leaves the Storer as it was. -/
theorem delete_then_download (lib : Lib) (s : Storer) (D : String) (dst : Dest) :
    (s.Delete lib D).2 = none ∧
    (∃ e, (Download lib (s.Delete lib D).1 dst D).err = some e ∧
      errorsIs e Error.ErrFileNotFound = true) ∧
    (Download lib (s.Delete lib D).1 dst D).dst.data = dst.data ∧
    (s.First lib D = none → (s.Delete lib D).1 = s) := by
  have hfirst := delete_first_same lib s D
  have hdl : Download lib (s.Delete lib D).1 dst D
      = ⟨some (.wrapW "error starting download" Error.ErrFileNotFound), (s.Delete lib D).1,
          dst.Close⟩ := by
    simp only [Download, Storer.Download, hfirst]
  rw [hdl]
  refine ⟨delete_err lib s D, ⟨_, rfl, rfl⟩, ?_, delete_absent lib s D⟩
  unfold Dest.Close
  split <;> rfl

/-- The Storer stays free of the digest under every later Delete of it. -/
theorem delete_twice (lib : Lib) (s : Storer) (D : String) :
    ((s.Delete lib D).1.Delete lib D) = ((s.Delete lib D).1, none) := by
  have h := delete_absent lib (s.Delete lib D).1 D (delete_first_same lib s D)
  have he := delete_err lib (s.Delete lib D).1 D
  exact Prod.ext h he

/-- C9. Below the threshold: for a fresh Checker with any list of supported
MIME types and every sequence of writes of fewer than 261 bytes in total,
after every number k of the writes MatchedMIME is empty and the buffer holds
the bytes written so far, every Write returned the length of its slice and a
nil error, and Close at the end returns ErrUnsupportedFile, whatever the bytes. -/
theorem checker_below_threshold (lib : Lib) (types : List String) (writes : List Bytes)
    (hlen : writes.flatten.length < 261) :
    (Checker.Writes lib { SupportedMIMEs := types } writes).2
      = writes.map (fun b => ((b.length : Int), (none : Option Error))) ∧
    (∀ k, (Checker.Writes lib { SupportedMIMEs := types } (writes.take k)).1.MatchedMIME = "" ∧
      (Checker.Writes lib { SupportedMIMEs := types } (writes.take k)).1.buf
        = (writes.take k).flatten) ∧
    (Checker.Writes lib { SupportedMIMEs := types } writes).1.Close
      = some Error.ErrUnsupportedFile := by
  have hall := writes_below lib writes { SupportedMIMEs := types } rfl
    (by simpa [minBytesNeeded] using hlen)
  refine ⟨by rw [hall], ?_, by rw [hall]; rfl⟩
  intro k
  have hk : (writes.take k).flatten.length < minBytesNeeded := by
    have hsplit := congrArg (fun l => (List.flatten l).length) (List.take_append_drop k writes)
    simp only [List.flatten_append, List.length_append] at hsplit
    unfold minBytesNeeded
    omega
  have hpre := writes_below lib (writes.take k) { SupportedMIMEs := types } rfl
    (by simpa using hk)
  rw [hpre]
  exact ⟨rfl, by simp⟩

/-- C9, at the one write of the test case FileTooShort in shape: 259 bytes that
begin like a GIF, with the three image types supported. -/
theorem checker_below_threshold_witness :
    (Checker.Writes imageLib { SupportedMIMEs := ["image/gif", "image/jpeg", "image/png"] }
        [strBytes "GIF89a" ++ List.replicate 253 0]).2
      = [strBytes "GIF89a" ++ List.replicate 253 0].map
          (fun b => ((b.length : Int), (none : Option Error))) ∧
    (∀ k, (Checker.Writes imageLib { SupportedMIMEs := ["image/gif", "image/jpeg", "image/png"] }
        ([strBytes "GIF89a" ++ List.replicate 253 0].take k)).1.MatchedMIME = "" ∧
      (Checker.Writes imageLib { SupportedMIMEs := ["image/gif", "image/jpeg", "image/png"] }
        ([strBytes "GIF89a" ++ List.replicate 253 0].take k)).1.buf
        = ([strBytes "GIF89a" ++ List.replicate 253 0].take k).flatten) ∧
    (Checker.Writes imageLib { SupportedMIMEs := ["image/gif", "image/jpeg", "image/png"] }
        [strBytes "GIF89a" ++ List.replicate 253 0]).1.Close
      = some Error.ErrUnsupportedFile :=
  checker_below_threshold imageLib ["image/gif", "image/jpeg", "image/png"]
    [strBytes "GIF89a" ++ List.replicate 253 0] (by decide!)

/-- A Write that brings the buffer of a Checker that has matched nothing yet to
at least 261 bytes and finds a match on a supported type that is a non-empty
string: it returns the length of its slice and a nil error and leaves
MatchedMIME equal to that type and the buffer empty; every later run of writes
leaves the Checker exactly as it is, each Write returning the length of its
slice and a nil error; and Close returns a nil error. -/
theorem checker_matched_noop (lib : Lib) (m : Checker) (b : Bytes) (mime : String)
    (later : List Bytes)
    (h0 : m.MatchedMIME = "") (hlen : 261 ≤ (m.buf ++ b).length)
    (hmatch : firstMatch lib (m.buf ++ b) m.SupportedMIMEs = some mime) (hne : mime ≠ "") :
    (m.Write lib b).2 = ((b.length : Int), none) ∧
    (m.Write lib b).1.MatchedMIME = mime ∧
    (m.Write lib b).1.buf = [] ∧
    (m.Write lib b).1.SupportedMIMEs = m.SupportedMIMEs ∧
    (Checker.Writes lib (m.Write lib b).1 later).1 = (m.Write lib b).1 ∧
    (Checker.Writes lib (m.Write lib b).1 later).2
      = later.map (fun p => ((p.length : Int), (none : Option Error))) ∧
    (m.Write lib b).1.Close = none := by
  have hw : m.Write lib b
      = ({ m with buf := [], MatchedMIME := mime }, (b.length : Int), none) := by
    unfold Checker.Write
    have hnlt : ¬ (m.buf ++ b).length < minBytesNeeded := by
      unfold minBytesNeeded
      omega
    simp only [h0, ne_eq, not_true_eq_false, if_false, hnlt, hmatch]
  rw [hw]
  have hlater := writes_matched lib { m with buf := [], MatchedMIME := mime } hne later
  refine ⟨rfl, rfl, rfl, rfl, by rw [hlater], by rw [hlater], ?_⟩
  simp [Checker.Close, hne]

/-! ## Theorems: the verdict of the Checker -/


theorem write_err_unsupported (lib : Lib) (m : Checker) (b : Bytes) (e : Error)
    (h : (m.Write lib b).2.2 = some e) :
    e = Error.ErrUnsupportedFile ∧ m.MatchedMIME = "" ∧
    minBytesNeeded ≤ (m.buf ++ b).length ∧
    firstMatch lib (m.buf ++ b) m.SupportedMIMEs = none ∧
    (m.Write lib b).1 = { m with buf := m.buf ++ b } := by
  by_cases h0 : m.MatchedMIME = ""
  · by_cases hl : (m.buf ++ b).length < minBytesNeeded
    · rw [write_below lib m b h0 hl] at h
      cases h
    · cases hm : firstMatch lib (m.buf ++ b) m.SupportedMIMEs with
      | some mime =>
        have hw : m.Write lib b
            = ({ m with buf := [], MatchedMIME := mime }, (b.length : Int), none) := by
          unfold Checker.Write
          simp only [h0, ne_eq, not_true_eq_false, if_false, hl, hm]
        rw [hw] at h
        cases h
      | none =>
        have hw : m.Write lib b
            = ({ m with buf := m.buf ++ b }, (b.length : Int),
                some Error.ErrUnsupportedFile) := by
          unfold Checker.Write
          simp only [h0, ne_eq, not_true_eq_false, if_false, hl, hm]
        rw [hw] at h ⊢
        injection h with h
        exact ⟨h.symm, h0, Nat.le_of_not_lt hl, rfl, rfl⟩
  · rw [write_matched lib m b h0] at h
    cases h

theorem firstMatch_head (lib : Lib) (hhead : headOnly lib) (buf : Bytes) :
    ∀ types : List String,
      firstMatch lib buf types = firstMatch lib (buf.take minBytesNeeded) types
  | [] => rfl
  | t :: rest => by
    simp only [firstMatch]
    rw [← hhead buf t, firstMatch_head lib hhead buf rest]

theorem take_append_long (a b : Bytes) (n : Nat) (h : n ≤ a.length) :
    (a ++ b).take n = a.take n := by
  rw [List.take_append_eq_append_take]
  have : n - a.length = 0 := by omega
  simp [this]

/-- After a rejection, with a classifier that looks at the first 261 bytes only,
every later Write rejects and MatchedMIME stays empty. -/
theorem writes_rejected (lib : Lib) (hhead : headOnly lib) :
    ∀ (later : List Bytes) (m : Checker),
      m.MatchedMIME = "" → minBytesNeeded ≤ m.buf.length →
      firstMatch lib m.buf m.SupportedMIMEs = none →
      Checker.Writes lib m later =
        ({ m with buf := m.buf ++ later.flatten },
          later.map (fun p => ((p.length : Int), some Error.ErrUnsupportedFile)))
  | [], m, _, _, _ => by simp [Checker.Writes]
  | p :: rest, m, h0, hl, hm => by
    have hl2 : ¬ (m.buf ++ p).length < minBytesNeeded := by
      simp only [List.length_append]
      omega
    have hm2 : firstMatch lib (m.buf ++ p) m.SupportedMIMEs = none := by
      rw [firstMatch_head lib hhead, take_append_long _ _ _ hl, ← firstMatch_head lib hhead]
      exact hm
    have hw : m.Write lib p
        = ({ m with buf := m.buf ++ p }, (p.length : Int), some Error.ErrUnsupportedFile) := by
      unfold Checker.Write
      simp only [h0, ne_eq, not_true_eq_false, if_false, hl2, hm2]
    have ih := writes_rejected lib hhead rest { m with buf := m.buf ++ p } h0
      (by simp only [List.length_append]; omega) hm2
    simp only [Checker.Writes, hw, ih, List.flatten_cons, List.append_assoc, List.map_cons]

/-- C11, as stated, fails: a Checker for application/x-tar rejects the first 261
bytes of a tar archive, whose signature ends at byte 262, and the next Write,
which brings that byte, matches: it returns a nil error, MatchedMIME is
application/x-tar and Close returns a nil error. -/
theorem checker_sticky_counterexample :
    (Checker.Write archiveLib { SupportedMIMEs := ["application/x-tar"] }
        (List.replicate 257 0 ++ strBytes "usta")).2
      = (261, some Error.ErrUnsupportedFile) ∧
    (Checker.Write archiveLib
        (Checker.Write archiveLib { SupportedMIMEs := ["application/x-tar"] }
          (List.replicate 257 0 ++ strBytes "usta")).1 (strBytes "r")).2 = (1, none) ∧
    (Checker.Write archiveLib
        (Checker.Write archiveLib { SupportedMIMEs := ["application/x-tar"] }
          (List.replicate 257 0 ++ strBytes "usta")).1 (strBytes "r")).1.MatchedMIME
      = "application/x-tar" ∧
    (Checker.Write archiveLib
        (Checker.Write archiveLib { SupportedMIMEs := ["application/x-tar"] }
          (List.replicate 257 0 ++ strBytes "usta")).1 (strBytes "r")).1.Close = none := by
  decide!

/-- C11, amended. With a classifier whose answer depends only on the first 261
bytes of the buffer, for every list of supported MIME types and every Checker,
once a Write has returned ErrUnsupportedFile every later Write returns the
length of its slice and ErrUnsupportedFile, whatever its bytes, MatchedMIME
stays empty, and Close after any such writes returns ErrUnsupportedFile. -/
theorem checker_rejection_sticky (lib : Lib) (m : Checker) (b : Bytes) (later : List Bytes)
    (hhead : headOnly lib)
    (hrej : (m.Write lib b).2.2 = some Error.ErrUnsupportedFile) :
    (Checker.Writes lib (m.Write lib b).1 later).2
      = later.map (fun p => ((p.length : Int), some Error.ErrUnsupportedFile)) ∧
    (Checker.Writes lib (m.Write lib b).1 later).1.MatchedMIME = "" ∧
    (Checker.Writes lib (m.Write lib b).1 later).1.Close = some Error.ErrUnsupportedFile := by
  obtain ⟨_, h0, hl, hm, hst⟩ := write_err_unsupported lib m b _ hrej
  rw [hst]
  have hw := writes_rejected lib hhead later { m with buf := m.buf ++ b } h0 hl hm
  rw [hw]
  refine ⟨rfl, h0, ?_⟩
  simp [Checker.Close, h0]

theorem imageLib_headOnly : headOnly imageLib := by
  intro buf mime
  simp only [imageLib, imageSignature, minBytesNeeded, List.take_take]
  rfl

/-- C11 amended, at the Checker of the tests and a first Write of 300 letters a,
followed by a Write that begins like a GIF and an empty one. -/
theorem checker_rejection_sticky_witness :
    (Checker.Writes imageLib
        (Checker.Write imageLib { SupportedMIMEs := ["image/gif", "image/jpeg", "image/png"] }
          (List.replicate 300 0x61)).1 [strBytes "GIF89a", []]).2
      = [strBytes "GIF89a", []].map (fun p => ((p.length : Int), some Error.ErrUnsupportedFile)) ∧
    (Checker.Writes imageLib
        (Checker.Write imageLib { SupportedMIMEs := ["image/gif", "image/jpeg", "image/png"] }
          (List.replicate 300 0x61)).1 [strBytes "GIF89a", []]).1.MatchedMIME = "" ∧
    (Checker.Writes imageLib
        (Checker.Write imageLib { SupportedMIMEs := ["image/gif", "image/jpeg", "image/png"] }
          (List.replicate 300 0x61)).1 [strBytes "GIF89a", []]).1.Close
      = some Error.ErrUnsupportedFile :=
  checker_rejection_sticky imageLib { SupportedMIMEs := ["image/gif", "image/jpeg", "image/png"] }
    (List.replicate 300 0x61) [strBytes "GIF89a", []] imageLib_headOnly (by decide!)

theorem firstMatch_spec (lib : Lib) (buf : Bytes) (t : String) :
    ∀ types : List String, firstMatch lib buf types = some t →
      ∃ pre post, types = pre ++ t :: post ∧ lib.IsMIME buf t = true ∧
        ∀ x ∈ pre, lib.IsMIME buf x = false
  | [], h => by cases h
  | x :: rest, h => by
    simp only [firstMatch] at h
    by_cases hx : lib.IsMIME buf x = true
    · rw [if_pos hx] at h
      injection h with h
      subst h
      exact ⟨[], rest, rfl, hx, by simp⟩
    · rw [if_neg hx] at h
      obtain ⟨pre, post, h1, h2, h3⟩ := firstMatch_spec lib buf t rest h
      refine ⟨x :: pre, post, by simp [h1], h2, ?_⟩
      intro y hy
      rcases List.mem_cons.1 hy with hy | hy
      · subst hy
        simpa using hx
      · exact h3 y hy

theorem firstMatch_mem (lib : Lib) (buf : Bytes) (t : String) (types : List String)
    (h : firstMatch lib buf types = some t) : t ∈ types := by
  obtain ⟨pre, post, h1, _, _⟩ := firstMatch_spec lib buf t types h
  rw [h1]
  simp

/-- The verdict of a run of writes on a Checker that has classified nothing yet,
with a classifier that looks at the first 261 bytes only and supported types
that are not empty: it is read off the first 261 bytes of all the bytes. -/
theorem writes_verdict (lib : Lib) (hhead : headOnly lib) :
    ∀ (writes : List Bytes) (m : Checker),
      m.MatchedMIME = "" → m.buf.length < minBytesNeeded →
      (∀ t ∈ m.SupportedMIMEs, t ≠ "") →
      (Checker.Writes lib m writes).1.MatchedMIME =
        if (m.buf ++ writes.flatten).length < minBytesNeeded then ""
        else (firstMatch lib ((m.buf ++ writes.flatten).take minBytesNeeded)
          m.SupportedMIMEs).getD ""
  | [], m, h0, hl, _ => by simp [Checker.Writes, h0, hl]
  | b :: rest, m, h0, hl, hne => by
    by_cases hb : (m.buf ++ b).length < minBytesNeeded
    · have ih := writes_verdict lib hhead rest { m with buf := m.buf ++ b } h0 hb hne
      simp only [Checker.Writes, write_below lib m b h0 hb, ih, List.flatten_cons,
        List.append_assoc]
    · have hlong : minBytesNeeded ≤ (m.buf ++ b).length := Nat.le_of_not_lt hb
      have hnot : ¬ (m.buf ++ (b :: rest).flatten).length < minBytesNeeded := by
        simp only [List.flatten_cons, List.length_append] at hlong ⊢
        omega
      have htake : (m.buf ++ (b :: rest).flatten).take minBytesNeeded
          = (m.buf ++ b).take minBytesNeeded := by
        rw [List.flatten_cons, ← List.append_assoc, take_append_long _ _ _ hlong]
      rw [if_neg hnot, htake, ← firstMatch_head lib hhead]
      cases hm : firstMatch lib (m.buf ++ b) m.SupportedMIMEs with
      | some mime =>
        have hw : m.Write lib b
            = ({ m with buf := [], MatchedMIME := mime }, (b.length : Int), none) := by
          unfold Checker.Write
          simp only [h0, ne_eq, not_true_eq_false, if_false, hb, hm]
        have hmime : mime ≠ "" := hne mime (firstMatch_mem lib _ mime _ hm)
        simp only [Checker.Writes, hw,
          writes_matched lib { m with buf := [], MatchedMIME := mime } hmime rest,
          Option.getD_some]
      | none =>
        have hw : m.Write lib b
            = ({ m with buf := m.buf ++ b }, (b.length : Int),
                some Error.ErrUnsupportedFile) := by
          unfold Checker.Write
          simp only [h0, ne_eq, not_true_eq_false, if_false, hb, hm]
        simp only [Checker.Writes, hw,
          writes_rejected lib hhead rest { m with buf := m.buf ++ b } h0 hlong hm,
          Option.getD_none]
        exact h0

/-- C12. The verdict does not depend on the chunking: with a classifier whose
answer depends only on the first 261 bytes of the buffer and supported types
that are all non-empty strings, for every byte string S and every way of
splitting S into consecutive writes to a fresh Checker, MatchedMIME at the end
and the result of Close are those of the single Write of S. -/
theorem checker_chunking (lib : Lib) (types : List String) (S : Bytes) (writes : List Bytes)
    (hhead : headOnly lib) (hne : ∀ t ∈ types, t ≠ "") (hS : writes.flatten = S) :
    (Checker.Writes lib { SupportedMIMEs := types } writes).1.MatchedMIME
      = (Checker.Writes lib { SupportedMIMEs := types } [S]).1.MatchedMIME ∧
    (Checker.Writes lib { SupportedMIMEs := types } writes).1.Close
      = (Checker.Writes lib { SupportedMIMEs := types } [S]).1.Close := by
  have h1 := writes_verdict lib hhead writes { SupportedMIMEs := types } rfl
    (by simp [minBytesNeeded]) hne
  have h2 := writes_verdict lib hhead [S] { SupportedMIMEs := types } rfl
    (by simp [minBytesNeeded]) hne
  have hflat : [S].flatten = S := by simp
  rw [hS] at h1
  rw [hflat] at h2
  have heq : (Checker.Writes lib { SupportedMIMEs := types } writes).1.MatchedMIME
      = (Checker.Writes lib { SupportedMIMEs := types } [S]).1.MatchedMIME := by
    rw [h1, h2]
  refine ⟨heq, ?_⟩
  unfold Checker.Close
  rw [heq]

/-- C12, at 600 bytes that begin like a GIF, written as the slices [0:100],
[100:512] and [512:] as in the test GIFMultiWrites. -/
theorem checker_chunking_witness :
    (Checker.Writes imageLib { SupportedMIMEs := ["image/gif", "image/jpeg", "image/png"] }
        [(strBytes "GIF89a" ++ List.replicate 594 0).take 100,
          ((strBytes "GIF89a" ++ List.replicate 594 0).drop 100).take 412,
          (strBytes "GIF89a" ++ List.replicate 594 0).drop 512]).1.MatchedMIME
      = (Checker.Writes imageLib { SupportedMIMEs := ["image/gif", "image/jpeg", "image/png"] }
        [strBytes "GIF89a" ++ List.replicate 594 0]).1.MatchedMIME ∧
    (Checker.Writes imageLib { SupportedMIMEs := ["image/gif", "image/jpeg", "image/png"] }
        [(strBytes "GIF89a" ++ List.replicate 594 0).take 100,
          ((strBytes "GIF89a" ++ List.replicate 594 0).drop 100).take 412,
          (strBytes "GIF89a" ++ List.replicate 594 0).drop 512]).1.Close
      = (Checker.Writes imageLib { SupportedMIMEs := ["image/gif", "image/jpeg", "image/png"] }
        [strBytes "GIF89a" ++ List.replicate 594 0]).1.Close := by
  have h := checker_chunking imageLib ["image/gif", "image/jpeg", "image/png"]
    (strBytes "GIF89a" ++ List.replicate 594 0)
    [(strBytes "GIF89a" ++ List.replicate 594 0).take 100,
      ((strBytes "GIF89a" ++ List.replicate 594 0).drop 100).take 412,
      (strBytes "GIF89a" ++ List.replicate 594 0).drop 512]
    imageLib_headOnly (by decide!) (by decide!)
  exact h

/-! ## Theorems: the copy and the Checker -/

/-- The copy with a Checker that rejects a write: it ends at the first chunk
the Checker rejects; the hasher and the handle hold the chunks before it. -/
theorem copyLoop_reject (lib : Lib) (rerr : Option Error) :
    ∀ (chunks : List Bytes) (m : Checker) (h : SHA256.Digest) (f : memory.File) (n : Int),
    ¬ (∀ r ∈ (Checker.Writes lib m (chunks.filter (fun p => p.length > 0))).2, r.2 = none) →
    ∃ pre rej post, chunks = pre ++ rej :: post ∧
      (∀ r ∈ (Checker.Writes lib m (pre.filter (fun p => p.length > 0))).2, r.2 = none) ∧
      rej.length > 0 ∧
      ((Checker.Writes lib m (pre.filter (fun p => p.length > 0))).1.Write lib rej).2.2
        = some Error.ErrUnsupportedFile ∧
      copyLoop lib rerr ⟨some m, h, f⟩ chunks n =
        ⟨⟨some ((Checker.Writes lib m (pre.filter (fun p => p.length > 0))).1.Write lib rej).1,
            h.Write pre.flatten, f.grown pre.flatten⟩, post,
          n + pre.flatten.length + rej.length, some Error.ErrUnsupportedFile⟩
  | [], m, h, f, n, hrej => by
    exfalso
    apply hrej
    simp [Checker.Writes]
  | p :: rest, m, h, f, n, hrej => by
    by_cases hp : p.length > 0
    · have hfil : (p :: rest).filter (fun p => p.length > 0)
          = p :: rest.filter (fun p => p.length > 0) := by simp [List.filter_cons, hp]
      rw [hfil] at hrej
      cases hw : (m.Write lib p).2.2 with
      | some e =>
        obtain ⟨he, _, _, _, _⟩ := write_err_unsupported lib m p e hw
        subst he
        refine ⟨[], p, rest, rfl, by simp [Checker.Writes], hp, by simpa [Checker.Writes] using hw,
          ?_⟩
        unfold copyLoop
        simp [hp, writers_write_some, hw, Checker.Writes, digest_write_nil, grown_nil]
      | none =>
        have hrest : ¬ (∀ r ∈ (Checker.Writes lib (m.Write lib p).1
            (rest.filter (fun p => p.length > 0))).2, r.2 = none) := by
          intro hall
          apply hrej
          intro r hr
          simp only [Checker.Writes, List.mem_cons] at hr
          rcases hr with hr | hr
          · rw [hr]
            exact hw
          · exact hall r hr
        obtain ⟨pre, rej, post, h1, h2, h3, h4, h5⟩ :=
          copyLoop_reject lib rerr rest (m.Write lib p).1 (h.Write p) (f.grown p)
            (n + p.length) hrest
        have hfil2 : (p :: pre).filter (fun p => p.length > 0)
            = p :: pre.filter (fun p => p.length > 0) := by simp [List.filter_cons, hp]
        refine ⟨p :: pre, rej, post, by simp [h1], ?_, h3, ?_, ?_⟩
        · rw [hfil2]
          intro r hr
          simp only [Checker.Writes, List.mem_cons] at hr
          rcases hr with hr | hr
          · rw [hr]
            exact hw
          · exact h2 r hr
        · rw [hfil2]
          simpa [Checker.Writes] using h4
        · unfold copyLoop
          simp only [hp, if_true, writers_write_some, hw, ne_eq, not_true_eq_false, if_false]
          rw [h5, hfil2]
          simp [Checker.Writes, digest_write_append, grown_grown, add_assoc]
    · have hnil : p = [] := by
        cases p with
        | nil => rfl
        | cons a t => simp at hp
      subst hnil
      have hfil : ([] :: rest).filter (fun p : Bytes => p.length > 0)
          = rest.filter (fun p => p.length > 0) := by simp [List.filter_cons]
      rw [hfil] at hrej
      obtain ⟨pre, rej, post, h1, h2, h3, h4, h5⟩ :=
        copyLoop_reject lib rerr rest m h f n hrej
      have hfil2 : ([] :: pre).filter (fun p : Bytes => p.length > 0)
          = pre.filter (fun p => p.length > 0) := by simp [List.filter_cons]
      refine ⟨[] :: pre, rej, post, by simp [h1], by rw [hfil2]; exact h2, h3,
        by rw [hfil2]; exact h4, ?_⟩
      unfold copyLoop
      simp only [List.length_nil, gt_iff_lt, lt_self_iff_false, if_false]
      rw [h5, hfil2]
      simp

/-- A copy with a Checker that returned no error had every write accepted. -/
theorem ioCopy_clean_accepts (lib : Lib) (m : Checker) (h : SHA256.Digest) (f : memory.File)
    (src : Source) (herr : (ioCopy lib ⟨some m, h, f⟩ src).err = none) :
    ∀ r ∈ (Checker.Writes lib m src.writes).2, r.2 = none := by
  by_contra hrej
  obtain ⟨pre, rej, post, _, _, _, _, h5⟩ :=
    copyLoop_reject lib src.err src.chunks m h f 0 hrej
  unfold ioCopy at herr
  rw [h5] at herr
  cases herr

/-- A run of accepted writes that brings a Checker with non-empty supported
types to the minimum: MatchedMIME at the end is the first supported type the
bytes buffered at the classification are of. -/
theorem writes_accepted_match (lib : Lib) :
    ∀ (writes : List Bytes) (m : Checker),
      m.MatchedMIME = "" → m.buf.length < minBytesNeeded →
      (∀ t ∈ m.SupportedMIMEs, t ≠ "") →
      (∀ r ∈ (Checker.Writes lib m writes).2, r.2 = none) →
      minBytesNeeded ≤ (m.buf ++ writes.flatten).length →
      firstMatch lib (sniffed m.buf writes) m.SupportedMIMEs
        = some (Checker.Writes lib m writes).1.MatchedMIME ∧
      minBytesNeeded ≤ (sniffed m.buf writes).length ∧
      ∃ tail, m.buf ++ writes.flatten = sniffed m.buf writes ++ tail
  | [], m, _, hl, _, _, hlen => by
    simp only [List.flatten_nil, List.append_nil] at hlen
    omega
  | b :: rest, m, h0, hl, hne, hacc, hlen => by
    by_cases hb : (m.buf ++ b).length < minBytesNeeded
    · have hw := write_below lib m b h0 hb
      simp only [Checker.Writes, hw, List.mem_cons, forall_eq_or_imp] at hacc
      have ih := writes_accepted_match lib rest { m with buf := m.buf ++ b } h0 hb hne hacc.2
        (by simpa [List.append_assoc] using hlen)
      simp only [Checker.Writes, hw, sniffed, hb, if_true, List.flatten_cons]
      rw [← List.append_assoc]
      exact ih
    · cases hm : firstMatch lib (m.buf ++ b) m.SupportedMIMEs with
      | none =>
        have hw : (m.Write lib b).2.2 = some Error.ErrUnsupportedFile := by
          unfold Checker.Write
          simp only [h0, ne_eq, not_true_eq_false, if_false, hb, hm]
        have := hacc (m.Write lib b).2 (by simp [Checker.Writes])
        rw [hw] at this
        cases this
      | some mime =>
        have hw : m.Write lib b
            = ({ m with buf := [], MatchedMIME := mime }, (b.length : Int), none) := by
          unfold Checker.Write
          simp only [h0, ne_eq, not_true_eq_false, if_false, hb, hm]
        have hmime : mime ≠ "" := hne mime (firstMatch_mem lib _ mime _ hm)
        simp only [Checker.Writes, hw,
          writes_matched lib { m with buf := [], MatchedMIME := mime } hmime rest, sniffed, hb,
          if_false, hm, true_and]
        exact ⟨Nat.le_of_not_lt hb, rest.flatten, by simp [List.append_assoc]⟩

/-- C13. The content type of a created upload: for every Upload that returns
with wasCreated true, with a non-empty list of accepted types that are all
non-empty strings and a source of at least 261 bytes, the ContentType of the
File is the first entry of the list, in its order, that the classifier matches
against the bytes the Checker had buffered when it classified: it is an entry
of the list, the classifier accepts those bytes for it and for no entry
before it; those bytes are the first bytes of the source, 261 of them or more. -/
theorem upload_content_type (lib : Lib) (s : Storer) (src : Source) (D : String)
    (types : List String) (u : Uploaded)
    (hout : (Upload lib s src D ⟨types⟩).out = .returned u) (hcr : u.wasCreated = true)
    (htypes : types ≠ []) (hne : ∀ t ∈ types, t ≠ "")
    (hlen : 261 ≤ src.chunks.flatten.length) :
    (∃ pre post, types = pre ++ u.file.ContentType :: post ∧
      lib.IsMIME (sniffed [] src.writes) u.file.ContentType = true ∧
      ∀ t ∈ pre, lib.IsMIME (sniffed [] src.writes) t = false) ∧
    261 ≤ (sniffed [] src.writes).length ∧
    ∃ tail, src.chunks.flatten = sniffed [] src.writes ++ tail := by
  obtain ⟨hcc, hsha⟩ := upload_created_inv lib s src D ⟨types⟩ u hout hcr
  obtain ⟨_, _, _, herr, hrun⟩ := upload_copied_run lib s src D ⟨types⟩ hcc
  rw [newChecker_some types htypes] at herr hrun
  have hacc := ioCopy_clean_accepts lib _ _ _ src herr
  rw [hrun, if_neg (not_not.mpr hsha), ioCopy_accept lib _ _ _ src hacc] at hout
  simp only at hout
  injection hout with hout
  subst hout
  obtain ⟨h1, h2, h3⟩ := writes_accepted_match lib src.writes { SupportedMIMEs := types } rfl
    (by simp [minBytesNeeded]) hne hacc
    (by simpa [Source.writes, writes_flatten, minBytesNeeded] using hlen)
  refine ⟨firstMatch_spec lib _ _ types h1, h2, ?_⟩
  obtain ⟨tail, ht⟩ := h3
  refine ⟨tail, ?_⟩
  simpa [Source.writes, writes_flatten] using ht

/-- C13, at 300 bytes that begin like a GIF, read in one chunk and uploaded
under their digest with image/gif the one accepted type: the ContentType is
image/gif. -/
theorem upload_content_type_witness :
    (Upload imageLib NewStorer ⟨[strBytes "GIF89a" ++ List.replicate 294 0], none, true, 0⟩
        (sha256hex (strBytes "GIF89a" ++ List.replicate 294 0)) ⟨["image/gif"]⟩).out
      = .returned ⟨sup.File.mk (sha256hex (strBytes "GIF89a" ++ List.replicate 294 0)) 300
          "image/gif", true, none⟩ ∧
    ((∃ pre post, ["image/gif"] = pre ++ "image/gif" :: post ∧
      imageLib.IsMIME (sniffed []
        (Source.writes ⟨[strBytes "GIF89a" ++ List.replicate 294 0], none, true, 0⟩))
        "image/gif" = true ∧
      ∀ t ∈ pre, imageLib.IsMIME (sniffed []
        (Source.writes ⟨[strBytes "GIF89a" ++ List.replicate 294 0], none, true, 0⟩)) t
        = false) ∧
    261 ≤ (sniffed []
      (Source.writes ⟨[strBytes "GIF89a" ++ List.replicate 294 0], none, true, 0⟩)).length ∧
    ∃ tail, (Source.mk [strBytes "GIF89a" ++ List.replicate 294 0] none true 0).chunks.flatten
      = sniffed [] (Source.writes ⟨[strBytes "GIF89a" ++ List.replicate 294 0], none, true, 0⟩)
        ++ tail) := by
  have hout : (Upload imageLib NewStorer
      ⟨[strBytes "GIF89a" ++ List.replicate 294 0], none, true, 0⟩
      (sha256hex (strBytes "GIF89a" ++ List.replicate 294 0)) ⟨["image/gif"]⟩).out
      = .returned ⟨sup.File.mk (sha256hex (strBytes "GIF89a" ++ List.replicate 294 0)) 300
          "image/gif", true, none⟩ := by decide!
  have h := upload_content_type imageLib NewStorer
    ⟨[strBytes "GIF89a" ++ List.replicate 294 0], none, true, 0⟩
    (sha256hex (strBytes "GIF89a" ++ List.replicate 294 0)) ["image/gif"] _ hout rfl
    (by decide!) (by decide!) (by decide!)
  exact ⟨hout, h⟩

/-! ## Theorems: Stat, errors and the closing of streams -/

/-- C14, as stated, fails on a blob of zero bytes: the upload of no bytes under
their digest, with image/gif accepted, creates a blob of zero bytes; the blob
exists, and Stat of the digest returns the error of the classifier on an empty
buffer. -/
theorem stat_counterexample :
    (Upload imageLib NewStorer ⟨[], none, true, 0⟩ (sha256hex []) ⟨["image/gif"]⟩).out
      = .returned ⟨sup.File.mk (sha256hex []) 0 "", true, none⟩ ∧
    (Upload imageLib NewStorer ⟨[], none, true, 0⟩ (sha256hex [])
        ⟨["image/gif"]⟩).store.First imageLib (sha256hex [])
      = some (NewFile (sha256hex []) []) ∧
    (match (Upload imageLib NewStorer ⟨[], none, true, 0⟩ (sha256hex [])
        ⟨["image/gif"]⟩).store.Stat imageLib (sha256hex []) with
      | .error e => e
      | .ok _ => Error.EOF) = Error.foreign "Empty buffer" := by
  decide!

/-- C14, amended. In the in-memory backend, for every digest D under which a
blob is stored and whose bytes the classifier classifies without error, with
the MIME value t, Stat of D returns the File of D with Size the number of
stored bytes and ContentType t, and no error; when the classifier returns an
error on the stored bytes, Stat returns that error; and for every digest with
no stored blob Stat returns ErrFileNotFound. -/
theorem stat_result (lib : Lib) (s : Storer) (D : String) :
    (∀ f t, s.First lib D = some f → lib.Match f.Contents = .ok t →
      s.Stat lib D = .ok (sup.File.mk D f.Contents.length t)) ∧
    (∀ f e, s.First lib D = some f → lib.Match f.Contents = .error e →
      s.Stat lib D = .error e) ∧
    (s.First lib D = none → s.Stat lib D = .error Error.ErrFileNotFound) := by
  refine ⟨?_, ?_, ?_⟩
  · intro f t hf hm
    simp only [Storer.Stat, hf, hm]
  · intro f e hf hm
    simp only [Storer.Stat, hf, hm]
  · intro hf
    simp only [Storer.Stat, hf]

theorem errorsIs_self (e : Error) : errorsIs e e = true := by
  cases e <;> simp [errorsIs]

theorem errorsIs_wrapW (msg : String) (e : Error) : errorsIs (.wrapW msg e) e = true := by
  simp [errorsIs, errorsIs_self]

/-- The errors of Stat on the dedup path and of the fetch of Download are
wrapped with the verb %w: errors.Is finds them in what the caller gets. -/
theorem backend_errors_kept (lib : Lib) (s : Storer) (src : Source) (sha : String)
    (opts : UploadOptions) (dst : Dest) (f : memory.File) :
    (∀ e, s.First lib sha = some f → s.Stat lib sha = .error e →
      ∃ r, (Upload lib s src sha opts).out = .returned ⟨{}, false, some r⟩ ∧
        errorsIs r e = true) ∧
    (∀ e, s.Download lib sha = .error e →
      ∃ r, (Download lib s dst sha).err = some r ∧ errorsIs r e = true) := by
  constructor
  · intro e hf hstat
    refine ⟨.wrapW "error stating existing file" e, ?_, errorsIs_wrapW _ e⟩
    simp only [Upload, upload_present lib s sha f hf, hstat]
  · intro e hd
    refine ⟨.wrapW "error starting download" e, ?_, errorsIs_wrapW _ e⟩
    simp only [Download, hd]

/-- C15. The error of the begin of an upload does not keep its kind: under an
empty claimed digest the in-memory Storer returns the error of its table,
object missing primary index, from Upload; the pipeline formats it with the
verb %s, and errors.Is does not find it in the error the caller gets. -/
theorem begin_error_not_wrapped :
    (Storer.Upload imageLib NewStorer "").2
      = .error (Error.foreign "object missing primary index") ∧
    (Upload imageLib NewStorer ⟨[strBytes "hello, world"], none, true, 0⟩ "" ⟨[]⟩).out
      = .returned ⟨{}, false, some (.wrapS "error starting upload"
          (Error.foreign "object missing primary index"))⟩ ∧
    errorsIs (.wrapS "error starting upload" (Error.foreign "object missing primary index"))
      (Error.foreign "object missing primary index") = false :=
  ⟨congrArg Prod.snd (upload_empty imageLib NewStorer rfl), by decide!, by decide!⟩

theorem readLoop_dst : ∀ (fuel : Nat) (f : memory.File) (d : Dest),
    (readLoop fuel f d).2.1.isCloser = d.isCloser ∧ (readLoop fuel f d).2.1.closes = d.closes
  | 0, _, _ => ⟨rfl, rfl⟩
  | fuel + 1, f, d => by
    have hw : ∀ p, (d.Write p).1.isCloser = d.isCloser ∧ (d.Write p).1.closes = d.closes := by
      intro p
      unfold Dest.Write
      split <;> exact ⟨rfl, rfl⟩
    unfold readLoop
    simp only
    split
    · split
      · exact hw _
      · split
        · exact hw _
        · split
          · exact hw _
          · have ih := readLoop_dst fuel (f.Read copyBufferSize).1
              (d.Write (f.Read copyBufferSize).2.1).1
            exact ⟨ih.1.trans (hw _).1, ih.2.trans (hw _).2⟩
    · split
      · exact ⟨rfl, rfl⟩
      · exact readLoop_dst fuel _ d

/-- C16. Streams are released exactly once: for every call of Upload whose
source is an io.ReadCloser, Close is called on the source once, on every way
out (failure of the begin, dedup, failure of the copy, digest mismatch,
success, and the panic); and for every call of Download whose destination is
an io.WriteCloser, Close is called on the destination once, also when the
digest is not found or the copy fails. -/
theorem streams_closed_once (lib : Lib) (s : Storer) (src : Source) (sha : String)
    (opts : UploadOptions) (dst : Dest)
    (hsrc : src.isCloser = true) (hdst : dst.isCloser = true) :
    (Upload lib s src sha opts).source.closes = src.closes + 1 ∧
    (Download lib s dst sha).dst.closes = dst.closes + 1 := by
  constructor
  · unfold Upload
    simp only
    repeat' split
    all_goals simp [Source.Close, hsrc]
  · unfold Download
    have hl := readLoop_dst
    split
    · simp [Dest.Close, hdst]
    · rename_i rc _
      have h := hl (rc.buf.length + 1) rc dst
      dsimp only
      split <;> simp [Dest.Close, h.1, h.2, hdst]

/-- C16, at an upload that is rolled back and a download of a digest that is
not found. -/
theorem streams_closed_once_witness :
    (Upload imageLib NewStorer ⟨[strBytes "hello, world"], none, true, 0⟩ "abc"
        ⟨["image/gif"]⟩).source.closes = (Source.mk [strBytes "hello, world"] none true 0).closes + 1 ∧
    (Download imageLib NewStorer ⟨[], none, true, 0⟩ "abc").dst.closes
      = (Dest.mk [] none true 0).closes + 1 :=
  streams_closed_once imageLib NewStorer ⟨[strBytes "hello, world"], none, true, 0⟩ "abc"
    ⟨["image/gif"]⟩ ⟨[], none, true, 0⟩ rfl rfl

/-! ## Theorems: what a created or a rejected upload leaves, and repeated downloads -/

/-- A Checker with non-empty supported types that accepted a run of writes and
rejects the next one has been given fewer bytes than the minimum. -/
theorem accepted_then_rejected_short (lib : Lib) (m : Checker) (writes : List Bytes)
    (rej : Bytes)
    (h0 : m.MatchedMIME = "") (hl : m.buf.length < minBytesNeeded)
    (hne : ∀ t ∈ m.SupportedMIMEs, t ≠ "")
    (hacc : ∀ r ∈ (Checker.Writes lib m writes).2, r.2 = none)
    (hrej : ((Checker.Writes lib m writes).1.Write lib rej).2.2 = some Error.ErrUnsupportedFile) :
    (m.buf ++ writes.flatten).length < minBytesNeeded := by
  by_contra hlong
  obtain ⟨h1, _, _⟩ := writes_accepted_match lib writes m h0 hl hne hacc (Nat.le_of_not_lt hlong)
  have hmime := hne _ (firstMatch_mem lib _ _ _ h1)
  rw [write_matched lib _ rej hmime] at hrej
  cases hrej

/-- The run of Upload when the Checker cuts the copy short. -/
theorem upload_rejected_run (lib : Lib) (s : Storer) (src : Source) (D : String)
    (types : List String) (htypes : types ≠ [])
    (hrej : snifferRejects lib s src D ⟨types⟩ = true) :
    D ≠ "" ∧ s.First lib D = none ∧
    ∃ pre rej post, src.chunks = pre ++ rej :: post ∧
      snifferAccepts lib types (pre.filter (fun p => p.length > 0)) ∧ rej.length > 0 ∧
      ((Checker.Writes lib { SupportedMIMEs := types }
        (pre.filter (fun p => p.length > 0))).1.Write lib rej).2.2
        = some Error.ErrUnsupportedFile ∧
      (ioCopy lib ⟨newChecker ⟨types⟩, SHA256.New, NewFile D []⟩ src).w.hasher
        = SHA256.New.Write pre.flatten ∧
      (ioCopy lib ⟨newChecker ⟨types⟩, SHA256.New, NewFile D []⟩ src).w.storer
        = (NewFile D []).grown pre.flatten ∧
      Upload lib s src D ⟨types⟩ =
        ⟨.returned ⟨{}, false,
            some (.wrapW "error uploading file" Error.ErrUnsupportedFile)⟩,
          ⟨(NewFile D []).grown pre.flatten :: s.db⟩,
          Source.Close { src with chunks := post }⟩ := by
  unfold snifferRejects at hrej
  cases hu : (s.Upload lib D).2 with
  | error e => rw [hu] at hrej; cases hrej
  | ok o =>
    cases o with
    | none => rw [hu] at hrej; cases hrej
    | some f =>
      rw [hu] at hrej
      obtain ⟨hne, habs, hf⟩ := upload_handle lib s D f hu
      subst hf
      have hnot : ¬ snifferAccepts lib types src.writes := by simpa using hrej
      obtain ⟨pre, rej, post, h1, h2, h3, h4, h5⟩ :=
        copyLoop_reject lib src.err src.chunks { SupportedMIMEs := types } SHA256.New
          (NewFile D []) 0 hnot
      have hcopy : ioCopy lib ⟨newChecker ⟨types⟩, SHA256.New, NewFile D []⟩ src
          = ⟨⟨some ((Checker.Writes lib { SupportedMIMEs := types }
              (pre.filter (fun p => p.length > 0))).1.Write lib rej).1,
              SHA256.New.Write pre.flatten, (NewFile D []).grown pre.flatten⟩, post,
            0 + pre.flatten.length + rej.length, some Error.ErrUnsupportedFile⟩ := by
        rw [newChecker_some types htypes]
        exact h5
      refine ⟨hne, habs, pre, rej, post, h1, h2, h3, h4, by rw [hcopy], by rw [hcopy], ?_⟩
      have htouch := touch_head lib s (NewFile D []) ((NewFile D []).grown pre.flatten) rfl habs
      simp only [Upload, upload_absent lib s D hne habs, hcopy, htouch]

/-- What an Upload leaves when the Checker cuts its copy short: Upload returns
the zero File, false and an error that is ErrUnsupportedFile; the hasher and
the handle of the Storer have received the chunks before the rejected one and
nothing else, the chunks after it are not read, and the backend holds under
the digest exactly the bytes of the chunks before the rejected one; these are
fewer than 261 bytes when every accepted type is a non-empty string. -/
theorem sniffer_abort (lib : Lib) (s : Storer) (src : Source) (D : String)
    (types : List String)
    (htypes : types ≠ []) (habs : s.First lib D = none)
    (hrej : snifferRejects lib s src D ⟨types⟩ = true) :
    ∃ pre rej post, src.chunks = pre ++ rej :: post ∧
      snifferAccepts lib types (pre.filter (fun p => p.length > 0)) ∧
      ((Checker.Writes lib { SupportedMIMEs := types }
        (pre.filter (fun p => p.length > 0))).1.Write lib rej).2.2
        = some Error.ErrUnsupportedFile ∧
      (∃ e, (Upload lib s src D ⟨types⟩).out = .returned ⟨{}, false, some e⟩ ∧
        errorsIs e Error.ErrUnsupportedFile = true) ∧
      (ioCopy lib ⟨newChecker ⟨types⟩, SHA256.New, NewFile D []⟩ src).w.hasher
        = SHA256.New.Write pre.flatten ∧
      (ioCopy lib ⟨newChecker ⟨types⟩, SHA256.New, NewFile D []⟩ src).w.storer.Contents
        = pre.flatten ∧
      (Upload lib s src D ⟨types⟩).source.chunks = post ∧
      (∃ f, (Upload lib s src D ⟨types⟩).store.First lib D = some f ∧
        f.Contents = pre.flatten) ∧
      ((∀ t ∈ types, t ≠ "") → pre.flatten.length < 261) := by
  have _ := habs
  obtain ⟨_, _, pre, rej, post, h1, h2, _, h4, h5, h6, hrun⟩ :=
    upload_rejected_run lib s src D types htypes hrej
  refine ⟨pre, rej, post, h1, h2, h4, ?_, h5, ?_, ?_, ?_, ?_⟩
  · rw [hrun]
    exact ⟨_, rfl, rfl⟩
  · rw [h6]
    simp [File.grown, NewFile]
  · rw [hrun]
    simp only [Source.Close]
    split <;> rfl
  · rw [hrun]
    refine ⟨_, first_head lib s.db _ D rfl, ?_⟩
    simp [File.grown, NewFile]
  · intro hne
    have hshort := accepted_then_rejected_short lib { SupportedMIMEs := types }
      (pre.filter (fun p => p.length > 0)) rej rfl (by simp [minBytesNeeded]) hne h2 h4
    simpa [writes_flatten, minBytesNeeded] using hshort


/-- C18. Soundness of wasCreated: for every state of the Storer, source, claimed
digest D and options, if Upload returns with wasCreated true then D was absent
before the call, the source was read to its end, D is the lowercase-hex SHA-256
of all the bytes read, the File has the SHA256 D and the Size the number of
bytes read, and after the call the in-memory backend holds exactly those bytes
under D. -/
theorem created_sound (lib : Lib) (s : Storer) (src : Source) (D : String)
    (opts : UploadOptions) (u : Uploaded)
    (hout : (Upload lib s src D opts).out = .returned u) (hcr : u.wasCreated = true) :
    s.First lib D = none ∧
    (Upload lib s src D opts).source.chunks = [] ∧ src.err = none ∧
    D = sha256hex src.chunks.flatten ∧
    u.file.SHA256 = D ∧ u.file.Size = src.chunks.flatten.length ∧
    ∃ f, (Upload lib s src D opts).store.First lib D = some f ∧
      f.Contents = src.chunks.flatten ∧ f.buf = src.chunks.flatten := by
  obtain ⟨hcc, hsha⟩ := upload_created_inv lib s src D opts u hout hcr
  obtain ⟨_, habs, hread, _, hrun⟩ := upload_copied_run lib s src D opts hcc
  have hclose : (Source.Close { src with chunks := [] }).chunks = [] := by
    unfold Source.Close
    split <;> rfl
  rw [hrun, if_neg (not_not.mpr hsha)] at hout ⊢
  cases hm : (ioCopy lib ⟨newChecker opts, SHA256.New, NewFile D []⟩ src).w.ctw with
  | none => rw [hm] at hout; cases hout
  | some m =>
    rw [hm] at hout
    simp only at hout ⊢
    injection hout with hout
    subst hout
    refine ⟨habs, hclose, hread, hsha.symm, rfl, rfl, _, first_head lib s.db _ D rfl, ?_, ?_⟩
    · simp [File.grown, NewFile]
    · simp [File.grown, NewFile]

/-- C18, at the upload of hello, world of the test table. -/
theorem created_sound_witness :
    NewStorer.First imageLib (sha256hex (strBytes "hello, world")) = none ∧
    (Upload imageLib NewStorer ⟨[strBytes "hello, world"], none, true, 0⟩
        (sha256hex (strBytes "hello, world")) ⟨["image/gif"]⟩).source.chunks = [] ∧
    (Source.mk [strBytes "hello, world"] none true 0).err = none ∧
    sha256hex (strBytes "hello, world")
      = sha256hex (Source.mk [strBytes "hello, world"] none true 0).chunks.flatten ∧
    (Uploaded.mk (sup.File.mk (sha256hex (strBytes "hello, world")) 12 "") true none).file.SHA256
      = sha256hex (strBytes "hello, world") ∧
    (Uploaded.mk (sup.File.mk (sha256hex (strBytes "hello, world")) 12 "") true none).file.Size
      = (Source.mk [strBytes "hello, world"] none true 0).chunks.flatten.length ∧
    ∃ f, (Upload imageLib NewStorer ⟨[strBytes "hello, world"], none, true, 0⟩
        (sha256hex (strBytes "hello, world")) ⟨["image/gif"]⟩).store.First imageLib
          (sha256hex (strBytes "hello, world")) = some f ∧
      f.Contents = (Source.mk [strBytes "hello, world"] none true 0).chunks.flatten ∧
      f.buf = (Source.mk [strBytes "hello, world"] none true 0).chunks.flatten := by
  have h := created_sound imageLib NewStorer ⟨[strBytes "hello, world"], none, true, 0⟩
    (sha256hex (strBytes "hello, world")) ⟨["image/gif"]⟩
    (Uploaded.mk (sup.File.mk (sha256hex (strBytes "hello, world")) 12 "") true none)
    (by decide!) rfl
  exact h

/-- The loop of Download changes nothing of the File but its read buffer. -/
theorem readLoop_file : ∀ (fuel : Nat) (f : memory.File) (d : Dest),
    (readLoop fuel f d).1.ID = f.ID ∧ (readLoop fuel f d).1.Contents = f.Contents ∧
    (readLoop fuel f d).1.Size = f.Size ∧ (readLoop fuel f d).1.ContentType = f.ContentType
  | 0, _, _ => ⟨rfl, rfl, rfl, rfl⟩
  | fuel + 1, f, d => by
    have hr : ∀ n, (f.Read n).1.ID = f.ID ∧ (f.Read n).1.Contents = f.Contents ∧
        (f.Read n).1.Size = f.Size ∧ (f.Read n).1.ContentType = f.ContentType := by
      intro n
      unfold memory.File.Read
      split
      · split <;> exact ⟨rfl, rfl, rfl, rfl⟩
      · exact ⟨rfl, rfl, rfl, rfl⟩
    have ih := fun d2 => readLoop_file fuel (f.Read copyBufferSize).1 d2
    have hstep : ∀ d2, (readLoop fuel (f.Read copyBufferSize).1 d2).1.ID = f.ID ∧
        (readLoop fuel (f.Read copyBufferSize).1 d2).1.Contents = f.Contents ∧
        (readLoop fuel (f.Read copyBufferSize).1 d2).1.Size = f.Size ∧
        (readLoop fuel (f.Read copyBufferSize).1 d2).1.ContentType = f.ContentType := by
      intro d2
      obtain ⟨a, b, c, e⟩ := ih d2
      obtain ⟨a2, b2, c2, e2⟩ := hr copyBufferSize
      exact ⟨a.trans a2, b.trans b2, c.trans c2, e.trans e2⟩
    unfold readLoop
    simp only
    split
    · split
      · exact hr _
      · split
        · exact hr _
        · split
          · exact hr _
          · exact hstep _
    · split
      · exact hr _
      · exact hstep _

/-- The lookup of the key of a File in a table after the File was touched. -/
theorem first_touch_same (lib : Lib) (g : memory.File) (hash : String)
    (h : indexKey lib g.ID = indexKey lib hash) :
    ∀ db : List memory.File,
      (Storer.Touch lib ⟨db⟩ g).First lib hash
        = (Storer.First lib ⟨db⟩ hash).map (fun _ => g)
  | [] => rfl
  | r :: rest => by
    have ih := first_touch_same lib g hash h rest
    simp only [Storer.Touch, Storer.First] at ih ⊢
    by_cases hr : indexKey lib r.ID = indexKey lib hash
    · have e1 : (indexKey lib r.ID == indexKey lib g.ID) = true := by
        simpa using hr.trans h.symm
      have e2 : (indexKey lib r.ID == indexKey lib hash) = true := by simpa using hr
      have e3 : (indexKey lib g.ID == indexKey lib hash) = true := by simpa using h
      rw [List.map_cons, e1, if_pos rfl, List.find?_cons, e3, List.find?_cons, e2]
      rfl
    · have e1 : (indexKey lib r.ID == indexKey lib g.ID) = false := by
        simpa using fun e => hr (e.trans h)
      have e2 : (indexKey lib r.ID == indexKey lib hash) = false := by simpa using hr
      rw [List.map_cons, e1, if_neg (by simp), List.find?_cons, e2, List.find?_cons, e2]
      exact ih

/-- The lookup of another key in a table after a File was touched. -/
theorem first_touch_other (lib : Lib) (g : memory.File) (hash : String)
    (h : indexKey lib g.ID ≠ indexKey lib hash) :
    ∀ db : List memory.File,
      (Storer.Touch lib ⟨db⟩ g).First lib hash = Storer.First lib ⟨db⟩ hash
  | [] => rfl
  | r :: rest => by
    have ih := first_touch_other lib g hash h rest
    simp only [Storer.Touch, Storer.First] at ih ⊢
    have e3 : (indexKey lib g.ID == indexKey lib hash) = false := by simpa using h
    by_cases hr : indexKey lib r.ID = indexKey lib g.ID
    · have e1 : (indexKey lib r.ID == indexKey lib g.ID) = true := by simpa using hr
      have e2 : (indexKey lib r.ID == indexKey lib hash) = false := by
        rw [hr]
        exact e3
      rw [List.map_cons, e1, if_pos rfl, List.find?_cons, e3, List.find?_cons, e2]
      exact ih
    · have e1 : (indexKey lib r.ID == indexKey lib g.ID) = false := by simpa using hr
      rw [List.map_cons, e1, if_neg (by simp), List.find?_cons, List.find?_cons, ih]

/-- A call of Download on a digest whose File has its read buffer equal to its
Contents: the File is left as it was, whether the copy fails or not, the other
digests are not touched, and a destination that accepts its writes receives
the Contents. -/
theorem download_settled (lib : Lib) (s : Storer) (D : String) (f : memory.File) (dst : Dest)
    (hrow : s.First lib D = some f) (hbuf : f.buf = f.Contents) :
    (Download lib s dst D).store.First lib D = some f ∧
    (∀ other, indexKey lib other ≠ indexKey lib D →
      (Download lib s dst D).store.First lib other = s.First lib other) ∧
    (dst.okWrites = none →
      (Download lib s dst D).err = none ∧
      (Download lib s dst D).dst.data = dst.data ++ f.Contents) := by
  obtain ⟨_, hkey⟩ := first_some_mem lib s D f hrow
  obtain ⟨h1, h2, h3, h4⟩ := readLoop_file (f.buf.length + 1) f dst
  have hclosed : ((readLoop (f.buf.length + 1) f dst).1.Close).1 = f := by
    unfold memory.File.Close
    cases f with
    | mk id size ct contents buf =>
      simp only at h1 h2 h3 h4 hbuf ⊢
      cases hr : (readLoop (buf.length + 1) ⟨id, size, ct, contents, buf⟩ dst).1 with
      | mk id2 size2 ct2 contents2 buf2 =>
        rw [hr] at h1 h2 h3 h4
        simp only at h1 h2 h3 h4
        subst h1 h2 h3 h4 hbuf
        rfl
  have hstore : (Download lib s dst D).store = s.Touch lib f := by
    simp only [Download, Storer.Download, hrow]
    rw [hclosed]
    split <;> rfl
  refine ⟨?_, ?_, ?_⟩
  · rw [hstore]
    have := first_touch_same lib f D hkey s.db
    rw [this]
    show Option.map (fun _ => f) (s.First lib D) = some f
    rw [hrow]
    rfl
  · intro other hother
    rw [hstore]
    have hne : indexKey lib f.ID ≠ indexKey lib other := by
      rw [hkey]
      exact fun e => hother e.symm
    exact first_touch_other lib f other hne s.db
  · intro hdst
    have hloop := readLoop_all (f.buf.length + 1) f dst hdst (Nat.lt_succ_self _)
    have hdata : ∀ d : Dest, d.Close.data = d.data := by
      intro d
      unfold Dest.Close
      split <;> rfl
    rw [hbuf] at hloop
    simp only [Download, Storer.Download, hrow, hbuf, hloop, hdata, true_and]

/-- Stat of a digest reads the table only through the lookup of the digest. -/
theorem stat_of_first (lib : Lib) (s t : Storer) (D : String)
    (h : t.First lib D = s.First lib D) : t.Stat lib D = s.Stat lib D := by
  unfold Storer.Stat
  rw [h]

/-- C19. Download does not consume the stored blob: for every digest D whose
File in the in-memory backend holds the bytes B with its read buffer at their
start, as a completed Upload and every earlier Download leave it, and for
every run of consecutive Downloads of D, with destinations that may fail,
each Download leaves the File of D and what Stat reports for D as they were,
and writes exactly B to its destination, with a nil error, when the
destination accepts its writes. -/
theorem download_keeps_blob (lib : Lib) (D : String) (f : memory.File) (B : Bytes) :
    ∀ (dsts : List Dest) (s : Storer),
      s.First lib D = some f → f.Contents = B → f.buf = B →
      List.Forall₂
        (fun d r =>
          (d.okWrites = none → r.err = none ∧ r.dst.data = d.data ++ B) ∧
          r.store.First lib D = some f ∧ r.store.Stat lib D = s.Stat lib D)
        dsts (Downloads lib s D dsts)
  | [], _, _, _, _ => List.Forall₂.nil
  | d :: rest, s, hrow, hB, hbuf => by
    obtain ⟨h1, _, h3⟩ := download_settled lib s D f d hrow (hbuf.trans hB.symm)
    have hstat : (Download lib s d D).store.Stat lib D = s.Stat lib D :=
      stat_of_first lib s _ D (h1.trans hrow.symm)
    have ih := download_keeps_blob lib D f B rest (Download lib s d D).store h1 hB hbuf
    simp only [Downloads]
    refine List.Forall₂.cons ⟨?_, h1, hstat⟩ ?_
    · intro hd
      rw [← hB]
      exact h3 hd
    · refine List.Forall₂.imp ?_ ih
      intro d2 r2 h
      exact ⟨h.1, h.2.1, h.2.2.trans hstat⟩

/-- C19, at the Storer the upload of hello, world leaves, downloaded three
times: to a destination that fails at its first write, then twice to
destinations that accept their writes. -/
theorem download_keeps_blob_witness :
    List.Forall₂
      (fun (d : Dest) (r : DownloadRun) =>
        (d.okWrites = none → r.err = none ∧ r.dst.data = d.data ++ strBytes "hello, world") ∧
        r.store.First imageLib (sha256hex (strBytes "hello, world"))
          = some ((NewFile (sha256hex (strBytes "hello, world")) []).grown
              (strBytes "hello, world")) ∧
        r.store.Stat imageLib (sha256hex (strBytes "hello, world"))
          = (Upload imageLib NewStorer ⟨[strBytes "hello, world"], none, true, 0⟩
              (sha256hex (strBytes "hello, world")) ⟨["image/gif"]⟩).store.Stat imageLib
              (sha256hex (strBytes "hello, world")))
      [⟨[], some 0, false, 0⟩, ⟨[], none, false, 0⟩, ⟨[1, 2], none, true, 0⟩]
      (Downloads imageLib
        (Upload imageLib NewStorer ⟨[strBytes "hello, world"], none, true, 0⟩
          (sha256hex (strBytes "hello, world")) ⟨["image/gif"]⟩).store
        (sha256hex (strBytes "hello, world"))
        [⟨[], some 0, false, 0⟩, ⟨[], none, false, 0⟩, ⟨[1, 2], none, true, 0⟩]) := by
  have h := download_keeps_blob imageLib (sha256hex (strBytes "hello, world"))
    ((NewFile (sha256hex (strBytes "hello, world")) []).grown (strBytes "hello, world"))
    (strBytes "hello, world")
    [⟨[], some 0, false, 0⟩, ⟨[], none, false, 0⟩, ⟨[1, 2], none, true, 0⟩]
    (Upload imageLib NewStorer ⟨[strBytes "hello, world"], none, true, 0⟩
      (sha256hex (strBytes "hello, world")) ⟨["image/gif"]⟩).store
    (by decide!) (by decide!) (by decide!)
  exact h

/-- A Download whose destination fails at its first write returns the error of
the copy and leaves the File as it was. -/
theorem download_failed_copy :
    (Download imageLib
        (Upload imageLib NewStorer ⟨[strBytes "hello, world"], none, true, 0⟩
          (sha256hex (strBytes "hello, world")) ⟨["image/gif"]⟩).store
        ⟨[], some 0, false, 0⟩ (sha256hex (strBytes "hello, world"))).err
      = some (.wrapW "error copying information" (Error.foreign "write failed")) ∧
    (Download imageLib
        (Upload imageLib NewStorer ⟨[strBytes "hello, world"], none, true, 0⟩
          (sha256hex (strBytes "hello, world")) ⟨["image/gif"]⟩).store
        ⟨[], some 0, false, 0⟩ (sha256hex (strBytes "hello, world"))).store
      = (Upload imageLib NewStorer ⟨[strBytes "hello, world"], none, true, 0⟩
          (sha256hex (strBytes "hello, world")) ⟨["image/gif"]⟩).store := by
  decide!

/-! ## Theorems: a classifier that never accepts the empty MIME value -/

/-- The stand-in library never accepts a buffer for the empty MIME value. -/
theorem imageLib_rejects_empty : ∀ buf : Bytes, imageLib.IsMIME buf "" = false := by
  intro buf
  simp [imageLib, imageSignature]

/-- With a classifier that never accepts the empty MIME value, the type the
range loop of Write finds is a non-empty string. -/
theorem firstMatch_nonempty (lib : Lib) (hlib : ∀ buf, lib.IsMIME buf "" = false)
    (buf : Bytes) (types : List String) (t : String)
    (h : firstMatch lib buf types = some t) : t ≠ "" := by
  obtain ⟨_, _, _, hacc, _⟩ := firstMatch_spec lib buf t types h
  intro ht
  rw [ht, hlib buf] at hacc
  cases hacc

/-- C10. The Checker is a permanent no-op after a match. The classifier never
accepts a buffer for the empty MIME value (filetype.IsMIME has no matcher under
it and never answers true for it). For every list of supported MIME types and
every Checker that has matched nothing yet, if a Write brings the buffer to at
least 261 bytes and finds that it matches one of the supported types, then
that Write returns the length of its slice and a nil error and leaves
MatchedMIME equal to that type and the buffer empty; every later run of writes
leaves the Checker exactly as it is, without buffering, classifying again or
changing MatchedMIME, each Write returning the length of its slice and a nil
error; and Close returns a nil error. -/
theorem checker_matched_permanent (lib : Lib) (m : Checker) (b : Bytes) (mime : String)
    (later : List Bytes)
    (hlib : ∀ buf, lib.IsMIME buf "" = false)
    (h0 : m.MatchedMIME = "") (hlen : 261 ≤ (m.buf ++ b).length)
    (hmatch : firstMatch lib (m.buf ++ b) m.SupportedMIMEs = some mime) :
    (m.Write lib b).2 = ((b.length : Int), none) ∧
    (m.Write lib b).1.MatchedMIME = mime ∧
    (m.Write lib b).1.buf = [] ∧
    (m.Write lib b).1.SupportedMIMEs = m.SupportedMIMEs ∧
    (Checker.Writes lib (m.Write lib b).1 later).1 = (m.Write lib b).1 ∧
    (Checker.Writes lib (m.Write lib b).1 later).2
      = later.map (fun p => ((p.length : Int), (none : Option Error))) ∧
    (m.Write lib b).1.Close = none :=
  checker_matched_noop lib m b mime later h0 hlen hmatch
    (firstMatch_nonempty lib hlib _ _ mime hmatch)

/-- C10, at a fresh Checker for image/gif, a first Write of 261 bytes that begin
like a GIF, and two later writes. -/
theorem checker_matched_permanent_witness :
    ((({ SupportedMIMEs := ["image/gif"] } : Checker).Write imageLib
        (strBytes "GIF89a" ++ List.replicate 255 0)).2
      = (((strBytes "GIF89a" ++ List.replicate 255 0).length : Int), none)) ∧
    (({ SupportedMIMEs := ["image/gif"] } : Checker).Write imageLib
        (strBytes "GIF89a" ++ List.replicate 255 0)).1.MatchedMIME = "image/gif" ∧
    (({ SupportedMIMEs := ["image/gif"] } : Checker).Write imageLib
        (strBytes "GIF89a" ++ List.replicate 255 0)).1.buf = [] ∧
    (({ SupportedMIMEs := ["image/gif"] } : Checker).Write imageLib
        (strBytes "GIF89a" ++ List.replicate 255 0)).1.SupportedMIMEs
      = ({ SupportedMIMEs := ["image/gif"] } : Checker).SupportedMIMEs ∧
    (Checker.Writes imageLib (({ SupportedMIMEs := ["image/gif"] } : Checker).Write imageLib
        (strBytes "GIF89a" ++ List.replicate 255 0)).1 [[1, 2, 3], strBytes "more"]).1
      = (({ SupportedMIMEs := ["image/gif"] } : Checker).Write imageLib
        (strBytes "GIF89a" ++ List.replicate 255 0)).1 ∧
    (Checker.Writes imageLib (({ SupportedMIMEs := ["image/gif"] } : Checker).Write imageLib
        (strBytes "GIF89a" ++ List.replicate 255 0)).1 [[1, 2, 3], strBytes "more"]).2
      = [[1, 2, 3], strBytes "more"].map (fun p => ((p.length : Int), (none : Option Error))) ∧
    (({ SupportedMIMEs := ["image/gif"] } : Checker).Write imageLib
        (strBytes "GIF89a" ++ List.replicate 255 0)).1.Close = none :=
  checker_matched_permanent imageLib { SupportedMIMEs := ["image/gif"] }
    (strBytes "GIF89a" ++ List.replicate 255 0) "image/gif" [[1, 2, 3], strBytes "more"]
    imageLib_rejects_empty rfl (by decide!) (by decide!)

/-- With a classifier that never accepts the empty MIME value, a run of
accepted writes that brings a Checker to the minimum leaves it matched. -/
theorem writes_accepted_matched (lib : Lib) (hlib : ∀ buf, lib.IsMIME buf "" = false) :
    ∀ (writes : List Bytes) (m : Checker),
      m.MatchedMIME = "" → m.buf.length < minBytesNeeded →
      (∀ r ∈ (Checker.Writes lib m writes).2, r.2 = none) →
      minBytesNeeded ≤ (m.buf ++ writes.flatten).length →
      (Checker.Writes lib m writes).1.MatchedMIME ≠ ""
  | [], m, _, hl, _, hlen => by
    simp only [List.flatten_nil, List.append_nil] at hlen
    omega
  | b :: rest, m, h0, hl, hacc, hlen => by
    by_cases hb : (m.buf ++ b).length < minBytesNeeded
    · have hw := write_below lib m b h0 hb
      simp only [Checker.Writes, hw, List.mem_cons, forall_eq_or_imp] at hacc
      have ih := writes_accepted_matched lib hlib rest { m with buf := m.buf ++ b } h0 hb hacc.2
        (by simpa [List.append_assoc] using hlen)
      simp only [Checker.Writes, hw]
      exact ih
    · cases hm : firstMatch lib (m.buf ++ b) m.SupportedMIMEs with
      | none =>
        have hw : (m.Write lib b).2.2 = some Error.ErrUnsupportedFile := by
          unfold Checker.Write
          simp only [h0, ne_eq, not_true_eq_false, if_false, hb, hm]
        have := hacc (m.Write lib b).2 (by simp [Checker.Writes])
        rw [hw] at this
        cases this
      | some mime =>
        have hw : m.Write lib b
            = ({ m with buf := [], MatchedMIME := mime }, (b.length : Int), none) := by
          unfold Checker.Write
          simp only [h0, ne_eq, not_true_eq_false, if_false, hb, hm]
        have hmime : mime ≠ "" := firstMatch_nonempty lib hlib _ _ mime hm
        simp only [Checker.Writes, hw,
          writes_matched lib { m with buf := [], MatchedMIME := mime } hmime rest]
        exact hmime

/-- C17. A rejection by the Checker ends the fan-out before the backend sees the
chunk. The classifier never accepts a buffer for the empty MIME value
(filetype.IsMIME has no matcher under it and never answers true for it). For
every Upload with a non-empty list of accepted types on an absent digest D in
which some chunk makes the Checker return ErrUnsupportedFile, Upload returns
the zero File, false and an error that is ErrUnsupportedFile; the hasher and
the handle of the Storer have received the chunks before the rejected one and
nothing else, the chunks after it are not read, and the backend holds under D
exactly the bytes of the chunks before the rejected one, fewer than 261 bytes. -/
theorem sniffer_rejection_aborts (lib : Lib) (s : Storer) (src : Source) (D : String)
    (types : List String)
    (hlib : ∀ buf, lib.IsMIME buf "" = false)
    (htypes : types ≠ []) (habs : s.First lib D = none)
    (hrej : snifferRejects lib s src D ⟨types⟩ = true) :
    ∃ pre rej post, src.chunks = pre ++ rej :: post ∧
      snifferAccepts lib types (pre.filter (fun p => p.length > 0)) ∧
      ((Checker.Writes lib { SupportedMIMEs := types }
        (pre.filter (fun p => p.length > 0))).1.Write lib rej).2.2
        = some Error.ErrUnsupportedFile ∧
      (∃ e, (Upload lib s src D ⟨types⟩).out = .returned ⟨{}, false, some e⟩ ∧
        errorsIs e Error.ErrUnsupportedFile = true) ∧
      (ioCopy lib ⟨newChecker ⟨types⟩, SHA256.New, NewFile D []⟩ src).w.hasher
        = SHA256.New.Write pre.flatten ∧
      (ioCopy lib ⟨newChecker ⟨types⟩, SHA256.New, NewFile D []⟩ src).w.storer.Contents
        = pre.flatten ∧
      (Upload lib s src D ⟨types⟩).source.chunks = post ∧
      (∃ f, (Upload lib s src D ⟨types⟩).store.First lib D = some f ∧
        f.Contents = pre.flatten) ∧
      pre.flatten.length < 261 := by
  obtain ⟨pre, rej, post, h1, h2, h3, h4, h5, h6, h7, h8, _⟩ :=
    sniffer_abort lib s src D types htypes habs hrej
  refine ⟨pre, rej, post, h1, h2, h3, h4, h5, h6, h7, h8, ?_⟩
  by_contra hlong
  have hmatched := writes_accepted_matched lib hlib (pre.filter (fun p => p.length > 0))
    { SupportedMIMEs := types } rfl (by simp [minBytesNeeded]) h2
    (by simpa [writes_flatten, minBytesNeeded] using Nat.le_of_not_lt hlong)
  rw [write_matched lib _ rej hmatched] at h3
  cases h3

/-- C17, at a text of 100 letters a followed by 200 letters b, read in two
chunks, with image/gif accepted: the second chunk is rejected. -/
theorem sniffer_rejection_aborts_witness :
    ∃ pre rej post,
      (Source.mk [List.replicate 100 0x61, List.replicate 200 0x62] none true 0).chunks
        = pre ++ rej :: post ∧
      snifferAccepts imageLib ["image/gif"] (pre.filter (fun p => p.length > 0)) ∧
      ((Checker.Writes imageLib { SupportedMIMEs := ["image/gif"] }
        (pre.filter (fun p => p.length > 0))).1.Write imageLib rej).2.2
        = some Error.ErrUnsupportedFile ∧
      (∃ e, (Upload imageLib NewStorer
          ⟨[List.replicate 100 0x61, List.replicate 200 0x62], none, true, 0⟩ "abc"
          ⟨["image/gif"]⟩).out = .returned ⟨{}, false, some e⟩ ∧
        errorsIs e Error.ErrUnsupportedFile = true) ∧
      (ioCopy imageLib ⟨newChecker ⟨["image/gif"]⟩, SHA256.New, NewFile "abc" []⟩
        ⟨[List.replicate 100 0x61, List.replicate 200 0x62], none, true, 0⟩).w.hasher
        = SHA256.New.Write pre.flatten ∧
      (ioCopy imageLib ⟨newChecker ⟨["image/gif"]⟩, SHA256.New, NewFile "abc" []⟩
        ⟨[List.replicate 100 0x61, List.replicate 200 0x62], none, true, 0⟩).w.storer.Contents
        = pre.flatten ∧
      (Upload imageLib NewStorer
          ⟨[List.replicate 100 0x61, List.replicate 200 0x62], none, true, 0⟩ "abc"
          ⟨["image/gif"]⟩).source.chunks = post ∧
      (∃ f, (Upload imageLib NewStorer
          ⟨[List.replicate 100 0x61, List.replicate 200 0x62], none, true, 0⟩ "abc"
          ⟨["image/gif"]⟩).store.First imageLib "abc" = some f ∧
        f.Contents = pre.flatten) ∧
      pre.flatten.length < 261 := by
  have h := sniffer_rejection_aborts imageLib NewStorer
    ⟨[List.replicate 100 0x61, List.replicate 200 0x62], none, true, 0⟩ "abc" ["image/gif"]
    imageLib_rejects_empty (by decide!) rfl (by decide!)
  exact h
